import Mathlib

set_option maxRecDepth 8000

/-!
Verification of the transaction export / token resolution core of a
personal-finance application.  The definitions below are a shallow
embedding of the Python sources:

* `src/api/get_bank_trx.py` — access-token validation (`is_valid_access_token`
  over `ACCESS_TOKEN_PATTERN`), the token store (`store_access_token`), token
  resolution (`resolve_access_token`), paginated transaction fetching
  (`fetch_transactions_for_token`), account filtering (`filter_transactions`),
  serialization (`serialize_transactions`) and the flat-file writer
  (`write_transactions_to_file`).
* `src/web/app.py` — the flat-file re-parser (`parse_transaction_file`).

Text is modelled as `List Char` (Python `str`), machine floats that only
ever hold two-decimal currency values as an integer number of cents, and
parsed amounts (Python `float(...)` of a matched digit string) as exact
rationals.  File and network I/O is made explicit: the token store is a
value, the Plaid provider is a stub function, and the flat file is the
string that would be written.
-/

namespace FinApp

/-- Python strings, modelled as lists of characters. -/
abbrev Str := List Char

/-- The characters Python's `str.strip()` removes (ASCII whitespace). -/
def isPySpace (c : Char) : Bool :=
  c = ' ' || c = '\t' || c = '\n' || c = '\r' || c = '\x0b' || c = '\x0c'

/-- Python `str.strip()`: drop leading and trailing whitespace. -/
def pyStrip (s : Str) : Str :=
  ((s.dropWhile isPySpace).reverse.dropWhile isPySpace).reverse

/-- ASCII decimal digit. -/
def isDigitCh (c : Char) : Bool := '0' ≤ c && c ≤ '9'

/-- A character allowed in the identifier part of a Plaid access token,
per `ACCESS_TOKEN_PATTERN`'s class `[A-Za-z0-9-]`. -/
def isTokenChar (c : Char) : Bool :=
  ('A' ≤ c && c ≤ 'Z') || ('a' ≤ c && c ≤ 'z') || isDigitCh c || c = '-'

/-- The three environment names accepted by `ACCESS_TOKEN_PATTERN`. -/
def envNames : List Str := ["sandbox".toList, "development".toList, "production".toList]

/-- One alternative of the regex `^access-(env)-[A-Za-z0-9-]+$`: the input
starts with `env ++ "-"` and the remainder is a non-empty run of identifier
characters. -/
def envBranch (env : Str) (s : Str) : Bool :=
  (env ++ ['-']).isPrefixOf s &&
    (let rest := s.drop (env.length + 1)
     !rest.isEmpty && rest.all isTokenChar)

/-- `ACCESS_TOKEN_PATTERN.match`: `^access-(sandbox|development|production)-[A-Za-z0-9-]+$`. -/
def matchesTokenPattern (s : Str) : Bool :=
  "access-".toList.isPrefixOf s &&
    (envNames.any fun env => envBranch env (s.drop 7))

/-- `is_valid_access_token` from `src/api/get_bank_trx.py`: strip the input,
then require it to be non-empty and to match `ACCESS_TOKEN_PATTERN`. -/
def is_valid_access_token (token : Str) : Bool :=
  let t := pyStrip token
  !t.isEmpty && matchesTokenPattern t

/-! ## Token store and resolver (`src/api/get_bank_trx.py`) -/

/-- The process environment and on-disk state `resolve_access_token` and
`store_access_token` read.  `os.getenv` of an unset variable and the empty
string behave identically everywhere in this module (every use either strips
then tests truthiness, or tests truthiness directly), so unset variables are
the empty string.  The token store's `items` mapping is kept in insertion
order, as a JSON object read by `json.loads` is. -/
structure EnvState where
  plaidAccessToken : Str
  plaidItemId : Str
  plaidAccessTokensCsv : Str
  plaidPublicToken : Str
  storeItems : List (Str × Str)

/-- What `resolve_access_token` does: return a token triple, fall through to
exchanging the pending public token, or raise `PlaidAccessTokenError`. -/
inductive Resolution where
  | token (accessToken : Str) (itemId : Option Str) (source : Str)
  | exchangePublic (publicToken : Str)
  | err (msg : Str)
deriving DecidableEq, Repr

/-- The remediation message of the final `PlaidAccessTokenError` in
`resolve_access_token`. -/
def noTokenMsg : Str :=
  ("No valid Plaid access token available. Please run the Plaid Link flow to obtain a token.\n"
    ++ "Helpful steps:\n"
    ++ "  1. Run `python src/api/bank_data_pipeline.py --link your_user_id` to generate a link token.\n"
    ++ "  2. Complete Plaid Link and capture the public_token.\n"
    ++ "  3. Exchange it via `python src/api/bank_data_pipeline.py <public_token>` "
    ++ "and set PLAID_ACCESS_TOKEN or place it in data/plaid_access_tokens.json.").toList

/-- Candidates contributed by `PLAID_ACCESS_TOKEN` (step 1 of
`resolve_access_token`): the stripped value, paired with the stripped
`PLAID_ITEM_ID` (or none when that is empty). -/
def envCandidates (env : EnvState) : List (Str × Option Str × Str) :=
  let t := pyStrip env.plaidAccessToken
  let item := pyStrip env.plaidItemId
  if is_valid_access_token t then
    [(t, if item.isEmpty then none else some item, "PLAID_ACCESS_TOKEN".toList)]
  else []

/-- Candidates contributed by the comma-separated `PLAID_ACCESS_TOKENS`
value (step 2): each entry stripped, empty entries skipped, malformed
entries skipped with a warning, item id always absent. -/
def csvCandidates (env : EnvState) : List (Str × Option Str × Str) :=
  if env.plaidAccessTokensCsv.isEmpty then []
  else
    (env.plaidAccessTokensCsv.splitOn ',').filterMap fun raw =>
      let t := pyStrip raw
      if t.isEmpty then none
      else if is_valid_access_token t then some (t, none, "PLAID_ACCESS_TOKENS".toList)
      else none

/-- Candidates contributed by the token store's `items` map (step 3), in
insertion order; the stored (unstripped) token is kept when it validates. -/
def storeCandidates (env : EnvState) : List (Str × Option Str × Str) :=
  env.storeItems.filterMap fun p =>
    if is_valid_access_token p.2 then some (p.2, some p.1, "token_store".toList) else none

/-- `resolve_access_token` from `src/api/get_bank_trx.py`.  Builds the
candidate list from steps 1–3; when `preferred_item_id` is truthy, returns
the first candidate whose item id equals it; otherwise returns the first
candidate; with no candidates, falls through to exchanging
`PLAID_PUBLIC_TOKEN` when that is set, and raises otherwise. -/
def resolve_access_token (env : EnvState) (preferredItemId : Option Str) : Resolution :=
  let candidates := envCandidates env ++ csvCandidates env ++ storeCandidates env
  let preferred := match preferredItemId with
    | none => none
    | some p => if p.isEmpty then none else some p
  match preferred with
  | some p =>
    match candidates.find? (fun c => c.2.1 = some p) with
    | some c => Resolution.token c.1 c.2.1 c.2.2
    | none => resolveNoPreference env candidates
  | none => resolveNoPreference env candidates
where
  /-- The tail of `resolve_access_token` after the preferred-item scan:
  first candidate, else public-token exchange, else the error. -/
  resolveNoPreference (env : EnvState) (candidates : List (Str × Option Str × Str)) :
      Resolution :=
    match candidates with
    | c :: _ => Resolution.token c.1 c.2.1 c.2.2
    | [] =>
      let publicToken := pyStrip env.plaidPublicToken
      if publicToken.isEmpty then Resolution.err noTokenMsg
      else Resolution.exchangePublic publicToken

/-- The token-store JSON document, as `store_access_token` mutates it:
`items` and `item_metadata` in insertion order plus the two bookkeeping
fields. -/
structure TokenStoreDoc where
  items : List (Str × Str)
  itemMetadata : List (Str × Str × Str)
  lastUpdated : Str
  lastItemId : Str
deriving DecidableEq, Repr

/-- Upsert into an insertion-ordered association list, as assignment to a
Python dict key does: overwrite in place when present, append when new. -/
def dictUpsert (m : List (Str × α)) (k : Str) (v : α) : List (Str × α) :=
  if m.any (fun p => p.1 = k) then
    m.map fun p => if p.1 = k then (k, v) else p
  else m ++ [(k, v)]

/-- The invalid-token message raised by `store_access_token`. -/
def invalidTokenMsg : Str :=
  "Provided access token is invalid. Expected format: access-<environment>-<identifier>".toList

/-- The full state `store_access_token` touches: the on-disk store plus the
two process-wide environment variables it updates. -/
structure StoreState where
  doc : TokenStoreDoc
  envAccessToken : Str
  envItemId : Str
deriving DecidableEq, Repr

/-- `store_access_token` from `src/api/get_bank_trx.py`.  Strips and
validates the token (raising `PlaidAccessTokenError` before the store is
read or written when it is malformed), resolves the item id from the
argument, then `PLAID_ITEM_ID`, then a synthesized `manual_<timestamp>`
name, upserts `items`/`item_metadata`, stamps `last_updated`/`last_item_id`,
writes the store, and finally updates `PLAID_ACCESS_TOKEN`/`PLAID_ITEM_ID`.
`now` stands for `datetime.utcnow()` rendered the two ways the code uses
it (compact for the synthesized id, ISO for timestamps).  Returns the
metadata dictionary and the state after the write. -/
def store_access_token (accessToken : Str) (itemId : Option Str) (source : Str)
    (nowCompact nowIso : Str) (st : StoreState) :
    Except Str ((Str × Str × Str × Str) × StoreState) :=
  let token := pyStrip accessToken
  if !is_valid_access_token token then
    Except.error invalidTokenMsg
  else
    let chain :=
      match itemId with
      | some i => if i.isEmpty then st.envItemId else i
      | none => st.envItemId
    let stripped := pyStrip chain
    let resolvedItemId :=
      if stripped.isEmpty then "manual_".toList ++ nowCompact else stripped
    let doc := st.doc
    let doc := { doc with items := dictUpsert doc.items resolvedItemId token }
    let doc := { doc with
      itemMetadata := dictUpsert doc.itemMetadata resolvedItemId (source, nowIso) }
    let doc := { doc with lastUpdated := nowIso, lastItemId := resolvedItemId }
    Except.ok ((token, resolvedItemId, source, nowIso),
      { doc := doc, envAccessToken := token, envItemId := resolvedItemId })

/-! ## Accounts, transactions, filtering and fetching -/

/-- A Plaid account object, with the attributes the module reads. -/
structure PlaidAccount where
  account_id : Str
  official_name : Option Str
  name : Str
  masked : Option Str
  subtype : Option Str
deriving DecidableEq, Repr

/-- A Plaid transaction object, with the attributes the module reads.
`date` models `str()` of the provider's date object; `amountCents` models
the provider amount, an exact two-decimal currency value, in cents. -/
structure PlaidTxn where
  date : Str
  name : Str
  merchant_name : Option Str
  amountCents : Int
  account_id : Str
  category : List Str
  transaction_id : Str
deriving DecidableEq, Repr

/-- Dictionary lookup (`dict.get`). -/
def lookupStr (m : List (Str × α)) (k : Str) : Option α :=
  (m.find? fun p => p.1 = k).map fun p => p.2

/-- The account-filter configuration built by `build_account_filters`. -/
structure Filters where
  account_ids : List Str
  account_name_keywords : List Str
  account_subtypes : List Str
deriving DecidableEq, Repr

/-- Python `keyword in text`: `needle` occurs as a contiguous substring. -/
def isSubstr (needle : Str) : Str → Bool
  | [] => needle.isEmpty
  | c :: t => needle.isPrefixOf (c :: t) || isSubstr needle t

/-- Python `str.lower()` on the ASCII names this module handles. -/
def lowerStr (s : Str) : Str := s.map Char.toLower

/-- The account name `filter_transactions` resolves for a transaction:
`(official_name or name or "").lower()` of the mapped account, `""` when
the account is unknown. -/
def filterAccountName (amap : List (Str × PlaidAccount)) (t : PlaidTxn) : Str :=
  match lookupStr amap t.account_id with
  | none => []
  | some a =>
    let o := a.official_name.getD []
    lowerStr (if o.isEmpty then a.name else o)

/-- The account subtype `filter_transactions` resolves:
`(subtype or "").lower()`, `""` when the account is unknown. -/
def filterAccountSubtype (amap : List (Str × PlaidAccount)) (t : PlaidTxn) : Str :=
  match lookupStr amap t.account_id with
  | none => []
  | some a => lowerStr (a.subtype.getD [])

/-- `filter_transactions` from `src/api/get_bank_trx.py`: with every
criterion empty return the input list unchanged; otherwise keep a
transaction when it passes the account-id membership, then the
name-keyword substring test (which also requires a non-empty resolved
name), then the subtype membership, each applied only when its list is
non-empty. -/
def filter_transactions (txns : List PlaidTxn) (amap : List (Str × PlaidAccount))
    (filters : Filters) : List PlaidTxn :=
  if filters.account_ids.isEmpty && filters.account_name_keywords.isEmpty
      && filters.account_subtypes.isEmpty then
    txns
  else
    txns.filter fun t =>
      let aname := filterAccountName amap t
      let asub := filterAccountSubtype amap t
      let keep1 := filters.account_ids.isEmpty || filters.account_ids.contains t.account_id
      let keep2 := keep1 && (filters.account_name_keywords.isEmpty ||
        (!aname.isEmpty && filters.account_name_keywords.any fun kw => isSubstr kw aname))
      keep2 && (filters.account_subtypes.isEmpty ||
        filters.account_subtypes.contains asub)

/-- One provider response to `transactions_get`: the page of transactions,
the accounts it carries, and the reported `total_transactions`. -/
structure Page where
  txns : List PlaidTxn
  accounts : List (Str × PlaidAccount)
  total : Nat

/-- Merge a response's accounts into the accumulated map, keyed by
account id (`accounts[acct.account_id] = acct`). -/
def mergeAccounts (amap : List (Str × PlaidAccount)) (new : List (Str × PlaidAccount)) :
    List (Str × PlaidAccount) :=
  new.foldl (fun m a => dictUpsert m a.1 a.2) amap

/-- The pagination loop of `fetch_transactions_for_token`:
`while len(transactions) < response.total_transactions`, request the next
page at `offset = len(transactions)`, extend the accumulator and merge
accounts.  `fuel` bounds the number of loop iterations evaluated; `none`
means the loop is still running when the fuel runs out, so a result for
every fuel value means termination and `none` for every fuel value means
the loop never exits. -/
def fetchAux (provider : Nat → Page) :
    Nat → List PlaidTxn → List (Str × PlaidAccount) → Nat →
    Option (List PlaidTxn × List (Str × PlaidAccount))
  | 0, acc, amap, total => if total ≤ acc.length then some (acc, amap) else none
  | fuel + 1, acc, amap, total =>
    if total ≤ acc.length then some (acc, amap)
    else
      let p := provider acc.length
      fetchAux provider fuel (acc ++ p.txns) (mergeAccounts amap p.accounts) p.total

/-- `fetch_transactions_for_token` from `src/api/get_bank_trx.py`, with the
provider call abstracted as `provider : offset → Page` (the initial request
carries no offset, i.e. offset 0): issue the first request, run the
pagination loop, then apply the client-side `filter_transactions`. -/
def fetch_transactions_for_token (provider : Nat → Page) (filters : Filters)
    (fuel : Nat) : Option (List PlaidTxn × List (Str × PlaidAccount)) :=
  match fetchAux provider fuel (provider 0).txns
      (mergeAccounts [] (provider 0).accounts) (provider 0).total with
  | none => none
  | some (txns, amap) => some (filter_transactions txns amap filters, amap)

/-! ## Serialization, sorting, flat-file writing -/

/-- A serialized transaction record, as built by `serialize_transactions`. -/
structure TxnRecord where
  date : Str
  name : Str
  merchant_name : Option Str
  amountCents : Int
  account_id : Str
  account_name : Str
  category : List Str
  transaction_id : Str
deriving DecidableEq, Repr

/-- The account name `serialize_transactions` resolves:
`official_name or name or masked or ""`. -/
def serAccountName (a : PlaidAccount) : Str :=
  let o := a.official_name.getD []
  if !o.isEmpty then o
  else if !a.name.isEmpty then a.name
  else a.masked.getD []

/-- `serialize_transactions` from `src/api/get_bank_trx.py`: a pure map
from provider objects to records. -/
def serialize_transactions (txns : List PlaidTxn) (amap : List (Str × PlaidAccount)) :
    List TxnRecord :=
  txns.map fun t =>
    { date := t.date
      name := t.name
      merchant_name := t.merchant_name
      amountCents := t.amountCents
      account_id := t.account_id
      account_name := match lookupStr amap t.account_id with
        | none => []
        | some a => serAccountName a
      category := t.category
      transaction_id := t.transaction_id }

/-- The decimal digit character for `n < 10`. -/
def digitChar (n : Nat) : Char := Char.ofNat (48 + n)

/-- Decimal rendering, peeling one digit per unit of fuel; `fuel > n`
always suffices since the argument at least halves each step. -/
def natToCharsAux : Nat → Nat → Str
  | 0, _ => []
  | fuel + 1, n =>
    if n < 10 then [digitChar n]
    else natToCharsAux fuel (n / 10) ++ [digitChar (n % 10)]

/-- Decimal rendering of a natural number, as Python `str()` writes it. -/
def natToChars (n : Nat) : Str := natToCharsAux (n + 1) n

/-- The exactly-two-digit rendering of `n ≤ 99`. -/
def twoDigits (n : Nat) : Str := [digitChar (n / 10), digitChar (n % 10)]

/-- Python `f"{amount:.2f}"` for an exact two-decimal amount of `c` cents:
optional minus sign, the unpadded integer part, a dot, two fraction
digits. -/
def formatCents (c : Int) : Str :=
  (if c < 0 then ['-'] else []) ++ natToChars (c.natAbs / 100) ++ ['.'] ++ twoDigits (c.natAbs % 100)

/-- One line of the flat file, as `write_transactions_to_file` writes it:
`Date: <date>, Name: <name>, Amount: $<amount>` plus `, Account: <name>`
when the record's account name is truthy, then a newline. -/
def lineFor (r : TxnRecord) : Str :=
  "Date: ".toList ++ r.date ++ ", Name: ".toList ++ r.name
    ++ ", Amount: $".toList ++ formatCents r.amountCents
    ++ (if r.account_name.isEmpty then [] else ", Account: ".toList ++ r.account_name)
    ++ ['\n']

/-- The `header` string of `write_transactions_to_file`: the count line
and a rule of 60 `=` followed by a blank line. -/
def fileHeader (rs : List TxnRecord) (startD endD : Str) : Str :=
  "Found ".toList ++ (natToChars rs.length ++ (" transactions from ".toList
    ++ (startD ++ (" to ".toList ++ (endD ++ ([':', '\n']
    ++ (List.replicate 60 '=' ++ ['\n', '\n'])))))))

/-- The `summary` string of `write_transactions_to_file`: a blank line,
the rule, and the line naming the written file (`fname` is the rendered
target path). -/
def fileFooter (fname : Str) : Str :=
  '\n' :: (List.replicate 60 '=' ++ ('\n' :: ("Total transactions saved to: ".toList
    ++ (fname ++ ['\n']))))

/-- `write_transactions_to_file` from `src/api/get_bank_trx.py`: the full
text written to `transactions_<start>_to_<end>.txt` — the count header,
one line per record, then the summary footer. -/
def write_transactions_to_file (rs : List TxnRecord) (startD endD fname : Str) : Str :=
  fileHeader rs startD endD ++ (rs.map lineFor).flatten ++ fileFooter fname

/-- Code-point lexicographic strict order on strings (Python `<`). -/
def strLtB : Str → Str → Bool
  | [], [] => false
  | [], _ :: _ => true
  | _ :: _, [] => false
  | a :: as, b :: bs => if a = b then strLtB as bs else decide (a < b)

/-- Code-point lexicographic order on strings (Python `<=`). -/
def strLeB : Str → Str → Bool
  | [], _ => true
  | _ :: _, [] => false
  | a :: as, b :: bs => if a = b then strLeB as bs else decide (a < b)

/-- The sort key comparison of `fetch_and_save_transactions` and
`BankDataPipeline.get_transactions`: Python tuple order on
`(record["date"], record["transaction_id"])`. -/
def keyLe (a b : TxnRecord) : Bool :=
  strLtB a.date b.date || (a.date = b.date && strLeB a.transaction_id b.transaction_id)

/-- Insert into a sorted list before the first element that is not
`le`-smaller; the building block of a stable sort. -/
def insertSorted (le : α → α → Bool) (a : α) : List α → List α
  | [] => [a]
  | b :: t => if le a b then a :: b :: t else b :: insertSorted le a t

/-- A stable comparison sort (insertion sort).  `list.sort(key=...)` is a
stable sort by the key order, and the stable sort of a list by a total
preorder is unique, so this computes the same list Python's sort does. -/
def pySortBy (le : α → α → Bool) (l : List α) : List α :=
  l.foldr (insertSorted le) []

/-- `serialised.sort(key=lambda record: (record["date"], record["transaction_id"]))`. -/
def sortRecords (rs : List TxnRecord) : List TxnRecord := pySortBy keyLe rs

/-! ## The flat-file parser (`src/web/app.py`) -/

/-- A character of the regex class `[\\d-]` (the date group). -/
def isDateCh (c : Char) : Bool := isDigitCh c || c = '-'

/-- A character of the regex class `[\\d.]` (the amount digits). -/
def isAmtCh (c : Char) : Bool := isDigitCh c || c = '.'

/-- Match a literal: `litP pat s` consumes `pat` off the front of `s`. -/
def litP : Str → Str → Option Str
  | [], s => some s
  | _ :: _, [] => none
  | p :: ps, c :: cs => if c = p then litP ps cs else none

/-- The maximal non-empty run of characters satisfying `p` (a greedy
regex `+` whose continuation cannot consume a `p`-character, which is the
case at each use below). -/
def takeWhile1 (p : Char → Bool) : Str → Option (Str × Str)
  | [] => none
  | c :: cs =>
    if p c then
      match takeWhile1 p cs with
      | some (run, rest) => some (c :: run, rest)
      | none => some ([c], cs)
    else none

/-- The optional `[+-]?` sign. -/
def signSplit : Str → Str × Str
  | [] => ([], [])
  | c :: cs => if c = '+' || c = '-' then ([c], cs) else ([], c :: cs)

/-- Attempt the pattern
`Date: ([\\d-]+), Name: ([^,]+), Amount: \\$([+-]?[\\d.]+)` at the start of
`s`; on success return the three groups and the unconsumed suffix.  Each
greedy group is followed by a literal whose first character the group's
class excludes, so maximal-munch matching is exactly the regex engine's
backtracking semantics. -/
def matchAt (s : Str) : Option ((Str × Str × Str) × Str) :=
  (litP "Date: ".toList s).bind fun s1 =>
  (takeWhile1 isDateCh s1).bind fun g1s2 =>
  (litP ", Name: ".toList g1s2.2).bind fun s3 =>
  (takeWhile1 (fun c => !(c = ',')) s3).bind fun g2s4 =>
  (litP ", Amount: $".toList g2s4.2).bind fun s5 =>
  (takeWhile1 isAmtCh (signSplit s5).2).bind fun g3s7 =>
  some ((g1s2.1, g2s4.1, (signSplit s5).1 ++ g3s7.1), g3s7.2)

/-- `re.findall` for the transaction pattern: scan left to right, emit
each non-overlapping match's groups, resume after the matched text.
`fuel` dominates the number of scan steps; `findAll` runs it with fuel
equal to the input length, which every step stays within. -/
def findAllAux : Nat → Str → List (Str × Str × Str)
  | 0, _ => []
  | _ + 1, [] => []
  | fuel + 1, c :: rest =>
    match matchAt (c :: rest) with
    | some (g, suffix) => g :: findAllAux fuel suffix
    | none => findAllAux fuel rest

/-- All matches of the transaction pattern in `content`. -/
def findAll (content : Str) : List (Str × Str × Str) := findAllAux content.length content

/-- Digits to a natural number, most significant first. -/
def charsToNat (ds : Str) : Nat := ds.foldl (fun a c => a * 10 + (c.toNat - 48)) 0

/-- Whether year `y` is a leap year. -/
def isLeapYear (y : Nat) : Bool := (y % 4 = 0 && !(y % 100 = 0)) || y % 400 = 0

/-- Days in month `m` of year `y`. -/
def daysInMonth (y m : Nat) : Nat :=
  if m = 2 then (if isLeapYear y then 29 else 28)
  else if m = 4 || m = 6 || m = 9 || m = 11 then 30 else 31

/-- `datetime.strptime(s, "%Y-%m-%d")` succeeds: a four-digit year (of a
representable year, 1 or more), a hyphen, a one- or two-digit month
`1..12`, a hyphen, and a one- or two-digit day valid for that month, with
nothing left over. -/
def dateOk (s : Str) : Bool :=
  let y := s.takeWhile isDigitCh
  match s.dropWhile isDigitCh with
  | '-' :: r2 =>
    let m := r2.takeWhile isDigitCh
    match r2.dropWhile isDigitCh with
    | '-' :: d =>
      y.length = 4 && (m.length = 1 || m.length = 2)
        && (d.length = 1 || d.length = 2) && d.all isDigitCh
        && 1 ≤ charsToNat y
        && 1 ≤ charsToNat m && charsToNat m ≤ 12
        && 1 ≤ charsToNat d && charsToNat d ≤ daysInMonth (charsToNat y) (charsToNat m)
    | _ => false
  | _ => false

/-- Python `float()` on a matched amount group (an optional sign followed
by a non-empty run of digits and dots): defined when there is at most one
dot and at least one digit, giving the exact decimal value. -/
def pyFloatQ (s : Str) : Option ℚ :=
  let sp := signSplit s
  let rest := sp.2
  if rest.isEmpty then none
  else if !rest.all isAmtCh then none
  else if 1 < (rest.filter (fun c => c = '.')).length then none
  else
    let ip := rest.takeWhile fun c => !(c = '.')
    let fp := if ip.length = rest.length then [] else rest.drop (ip.length + 1)
    if ip.isEmpty && fp.isEmpty then none
    else
      let mag : ℚ := (charsToNat (ip ++ fp) : ℚ) / (10 : ℚ) ^ fp.length
      some (if sp.1 = ['-'] then -mag else mag)

/-- A record built by `parse_transaction_file` for one structurally
matched and successfully converted line. -/
structure ParsedTxn where
  id : Nat
  date : Str
  name : Str
  amount : ℚ
deriving DecidableEq, Repr

/-- A Python dictionary value, for stating facts about the exact dict
`parse_transaction_file` builds. -/
inductive PVal where
  | vInt (n : Int)
  | vStr (s : Str)
  | vQ (q : ℚ)
  | vNone
deriving DecidableEq, Repr

/-- The dictionary `parse_transaction_file` appends for a kept match, with
its exact keys in insertion order: `datetime` is the parsed date object
(rendered here by its date string), `merchant` and `description` reuse the
trimmed name, and `time` is the fixed placeholder. -/
def pyDict (r : ParsedTxn) : List (Str × PVal) :=
  [("id".toList, PVal.vInt r.id),
   ("date".toList, PVal.vStr r.date),
   ("datetime".toList, PVal.vStr r.date),
   ("name".toList, PVal.vStr r.name),
   ("merchant".toList, PVal.vStr r.name),
   ("description".toList, PVal.vStr r.name),
   ("amount".toList, PVal.vQ r.amount),
   ("time".toList, PVal.vStr "12:00:00".toList)]

/-- Dictionary key lookup (`rec["key"]`, as an option). -/
def dictGet (d : List (Str × PVal)) (k : Str) : Option PVal :=
  (d.find? fun p => p.1 = k).map fun p => p.2

/-- The per-match loop of `parse_transaction_file`: `i` enumerates every
structural match (so a skipped malformed match still advances the id
counter); a match is kept when its date parses with `strptime` and its
stripped amount converts with `float`, the name stripped of surrounding
whitespace. -/
def buildRecords : Nat → List (Str × Str × Str) → List ParsedTxn
  | _, [] => []
  | i, (d, n, a) :: rest =>
    if dateOk d then
      match pyFloatQ (pyStrip a) with
      | some q => { id := i + 1, date := d, name := pyStrip n, amount := q } :: buildRecords (i + 1) rest
      | none => buildRecords (i + 1) rest
    else buildRecords (i + 1) rest

/-- The result envelope of `parse_transaction_file`. -/
structure ParseResult where
  success : Bool
  transactions : List ParsedTxn
  count : Nat
  error : Option Str
deriving DecidableEq, Repr

/-- The match groups the transaction pattern yields on the flat-file line
written for record `r`: its date, its raw name, and its formatted amount. -/
def groupsOf (r : TxnRecord) : Str × Str × Str :=
  (r.date, r.name, formatCents r.amountCents)

/-- The records `parse_transaction_file` recovers from the flat file
written for `rs`, starting at match index `i`: sequential 1-based ids,
the date verbatim, the name stripped of surrounding whitespace, and the
amount as the exact two-decimal value that was written. -/
def expectedFrom : Nat → List TxnRecord → List ParsedTxn
  | _, [] => []
  | i, r :: rest =>
    { id := i + 1, date := r.date, name := pyStrip r.name,
      amount := (r.amountCents : ℚ) / 100 } :: expectedFrom (i + 1) rest

/-- The conditions under which a serialized record survives the flat-file
round trip: a `strptime`-parseable date, a non-empty name containing no
comma (a comma truncates the `[^,]+` name group and makes the line
unmatchable), and an account name without `D` (so the remainder of its
line cannot start a spurious match). -/
def goodRec (r : TxnRecord) : Prop :=
  dateOk r.date = true ∧ r.name ≠ [] ∧ ',' ∉ r.name ∧ 'D' ∉ r.account_name

instance (r : TxnRecord) : Decidable (goodRec r) := by
  unfold goodRec
  infer_instance

/-- `parse_transaction_file` from `src/web/app.py`, on the content of the
file (the file-level read, whose failure is the only `success=False`
path, is abstracted away): find every pattern match, convert each, and
report success with the records and their count. -/
def parse_transaction_file (content : Str) : ParseResult :=
  let ts := buildRecords 0 (findAll content)
  { success := true, transactions := ts, count := ts.length, error := none }

/-! ## Provider stubs for the pagination claims -/

/-- A transaction token for pagination stubs. -/
def dummyTxn : PlaidTxn :=
  { date := [], name := [], merchant_name := none, amountCents := 0,
    account_id := [], category := [], transaction_id := [] }

/-- A well-behaved provider stub: it reports `total_transactions = 250`
and serves pages of 100, 100 and 50 transactions at offsets 0, 100, 200. -/
def stub250 : Nat → Page := fun offset =>
  if offset = 0 then ⟨List.replicate 100 dummyTxn, [], 250⟩
  else if offset = 100 then ⟨List.replicate 100 dummyTxn, [], 250⟩
  else if offset = 200 then ⟨List.replicate 50 dummyTxn, [], 250⟩
  else ⟨[], [], 250⟩

/-- A misreporting provider stub that never makes progress: every response
is an empty page that still claims `total_transactions = 10`. -/
def stubStuck : Nat → Page := fun _ => ⟨[], [], 10⟩

/-! ## Helper lemmas -/


theorem dropWhile_head?_false (p : Char → Bool) (l : Str) :
    ∀ c, (l.dropWhile p).head? = some c → p c = false := by
  induction l with
  | nil => intro c h; simp [List.dropWhile] at h
  | cons a t ih =>
    intro c h
    by_cases hp : p a
    · simpa [List.dropWhile, hp] using ih c (by simpa [List.dropWhile, hp] using h)
    · simp [List.dropWhile, hp] at h
      rw [← h]
      simpa using hp

theorem dropWhile_of_head?_false (p : Char → Bool) (l : Str)
    (h : ∀ c, l.head? = some c → p c = false) : l.dropWhile p = l := by
  cases l with
  | nil => rfl
  | cons a t => simp [List.dropWhile, h a rfl]

theorem dropWhile_dropWhile (p : Char → Bool) (l : Str) :
    (l.dropWhile p).dropWhile p = l.dropWhile p :=
  dropWhile_of_head?_false p _ (dropWhile_head?_false p l)

theorem getLast?_of_suffix {l m : Str} (h : l <:+ m) (hne : l ≠ []) :
    m.getLast? = l.getLast? := by
  obtain ⟨pre, rfl⟩ := h
  exact List.getLast?_append_of_ne_nil _ hne

theorem pyStrip_head?_false (s : Str) :
    ∀ c, (pyStrip s).head? = some c → isPySpace c = false := by
  intro c h
  unfold pyStrip at h
  rw [List.head?_reverse] at h
  have hsuff : ((s.dropWhile isPySpace).reverse.dropWhile isPySpace) <:+
      (s.dropWhile isPySpace).reverse := List.dropWhile_suffix _
  have hne : ((s.dropWhile isPySpace).reverse.dropWhile isPySpace) ≠ [] := by
    intro hnil; rw [hnil] at h; simp at h
  have := getLast?_of_suffix hsuff hne
  rw [← this, List.getLast?_reverse] at h
  exact dropWhile_head?_false isPySpace s c h

theorem pyStrip_idem (s : Str) : pyStrip (pyStrip s) = pyStrip s := by
  have h1 : (pyStrip s).dropWhile isPySpace = pyStrip s :=
    dropWhile_of_head?_false _ _ (pyStrip_head?_false s)
  show ((((pyStrip s).dropWhile isPySpace).reverse).dropWhile isPySpace).reverse = pyStrip s
  rw [h1]
  show ((((s.dropWhile isPySpace).reverse.dropWhile isPySpace).reverse).reverse.dropWhile
      isPySpace).reverse = pyStrip s
  rw [List.reverse_reverse, dropWhile_dropWhile]
  rfl

theorem is_valid_pyStrip (s : Str) :
    is_valid_access_token (pyStrip s) = is_valid_access_token s := by
  unfold is_valid_access_token
  rw [pyStrip_idem]

/-! ## Claim theorems: token resolution and storage -/

/-- **C5.**  With an empty token store, no current-token value, no
comma-separated token list and no pending public token,
`resolve_access_token` raises `PlaidAccessTokenError`, whose message
carries the remediation steps. -/
theorem claim_C5_empty_sources_error :
    resolve_access_token ⟨[], [], [], [], []⟩ none = Resolution.err noTokenMsg ∧
      isSubstr "Helpful steps:".toList noTokenMsg = true := by
  exact ⟨rfl, by decide⟩

/-- **C9.**  `store_access_token` validates before touching any state: for
every string failing the access-token format check it returns the
`PlaidAccessTokenError` alone — no metadata and no successor state — so
the token store document and the process-wide token/item-id variables are
unchanged. -/
theorem claim_C9_invalid_token_atomic (accessToken : Str) (itemId : Option Str)
    (source nowCompact nowIso : Str) (st : StoreState)
    (h : is_valid_access_token accessToken = false) :
    store_access_token accessToken itemId source nowCompact nowIso st =
      Except.error invalidTokenMsg := by
  unfold store_access_token
  simp only [is_valid_pyStrip accessToken, h, Bool.not_false, if_pos]

/-- Witness for C9 at the concrete malformed token `"garbage"`. -/
theorem claim_C9_witness :
    store_access_token "garbage".toList none "manual".toList
        "20240101000000".toList "2024-01-01T00:00:00".toList
        ⟨⟨[], [], [], []⟩, [], []⟩ =
      Except.error invalidTokenMsg :=
  claim_C9_invalid_token_atomic _ _ _ _ _ _ (by decide)

theorem csvCandidates_shape (env : EnvState) :
    ∀ c ∈ csvCandidates env, c.2.1 = none ∧ c.2.2 = "PLAID_ACCESS_TOKENS".toList := by
  intro c hc
  unfold csvCandidates at hc
  by_cases hempty : env.plaidAccessTokensCsv.isEmpty
  · simp [hempty] at hc
  · simp only [hempty, if_false, Bool.false_eq_true, List.mem_filterMap] at hc
    obtain ⟨raw, _, hraw⟩ := hc
    by_cases h1 : (pyStrip raw).isEmpty
    · simp [h1] at hraw
    · by_cases h2 : is_valid_access_token (pyStrip raw)
      · simp only [h1, h2, if_false, if_true, Bool.false_eq_true, Option.some_inj] at hraw
        rw [← hraw]
        exact ⟨rfl, rfl⟩
      · simp [h1, h2] at hraw

/-- **C4.**  Token-resolution precedence.  First, a well-formed
`PLAID_ACCESS_TOKEN` wins over a non-empty token store when no preferred
item id is given.  Second, with the token store as the only source, a
`preferred_item_id` naming the second of two stored items selects that
item's token. -/
theorem claim_C4_resolution_precedence :
    (∀ env : EnvState, is_valid_access_token env.plaidAccessToken = true →
      env.storeItems ≠ [] →
      resolve_access_token env none =
        Resolution.token (pyStrip env.plaidAccessToken)
          (if (pyStrip env.plaidItemId).isEmpty then none else some (pyStrip env.plaidItemId))
          "PLAID_ACCESS_TOKEN".toList) ∧
    (∀ itemEnv pub i1 t1 i2 t2 : Str,
      is_valid_access_token t1 = true → is_valid_access_token t2 = true →
      i1 ≠ i2 → i2 ≠ [] →
      resolve_access_token ⟨[], itemEnv, [], pub, [(i1, t1), (i2, t2)]⟩ (some i2) =
        Resolution.token t2 (some i2) "token_store".toList) := by
  constructor
  · intro env hvalid _
    unfold resolve_access_token
    simp only [envCandidates, is_valid_pyStrip, hvalid, if_true, List.cons_append]
    rfl
  · intro itemEnv pub i1 t1 i2 t2 h1 h2 hne hi2
    unfold resolve_access_token
    have henv : envCandidates ⟨[], itemEnv, [], pub, [(i1, t1), (i2, t2)]⟩ = [] := by
      simp [envCandidates, is_valid_access_token, pyStrip, matchesTokenPattern]
    have hcsv : csvCandidates ⟨[], itemEnv, [], pub, [(i1, t1), (i2, t2)]⟩ = [] := rfl
    have hstore : storeCandidates ⟨[], itemEnv, [], pub, [(i1, t1), (i2, t2)]⟩ =
        [(t1, some i1, "token_store".toList), (t2, some i2, "token_store".toList)] := by
      simp [storeCandidates, h1, h2]
    rw [henv, hcsv, hstore]
    have hi2e : i2.isEmpty = false := by
      cases i2 with
      | nil => exact absurd rfl hi2
      | cons a t => rfl
    simp [List.find?, hne, hi2e]

/-- **C10.**  Token-list candidates carry no item id, so when the current
token is unset and the store contributes nothing, a preferred item id can
never select a token-list entry: resolution returns the first token-list
candidate (whose source tag is `PLAID_ACCESS_TOKENS`) in list order. -/
theorem claim_C10_csv_preference_blind (itemEnv csv pub : Str)
    (store : List (Str × Str)) (p : Str) (c : Str × Option Str × Str)
    (hstore : storeCandidates ⟨[], itemEnv, csv, pub, store⟩ = [])
    (hp : p ≠ [])
    (hc : (csvCandidates ⟨[], itemEnv, csv, pub, store⟩).head? = some c) :
    resolve_access_token ⟨[], itemEnv, csv, pub, store⟩ (some p) =
      Resolution.token c.1 none "PLAID_ACCESS_TOKENS".toList := by
  have henv : envCandidates ⟨[], itemEnv, csv, pub, store⟩ = [] := by
    simp [envCandidates, is_valid_access_token, pyStrip, matchesTokenPattern]
  obtain ⟨rest, hrest⟩ : ∃ rest,
      csvCandidates ⟨[], itemEnv, csv, pub, store⟩ = c :: rest := by
    cases hcl : csvCandidates ⟨[], itemEnv, csv, pub, store⟩ with
    | nil => rw [hcl] at hc; simp at hc
    | cons a t =>
      rw [hcl] at hc
      simp only [List.head?] at hc
      exact ⟨t, by rw [Option.some_inj] at hc; rw [← hc]⟩
  have hshape := csvCandidates_shape ⟨[], itemEnv, csv, pub, store⟩ c
    (by rw [hrest]; exact List.mem_cons_self c rest)
  have hfind : (envCandidates ⟨[], itemEnv, csv, pub, store⟩ ++
      csvCandidates ⟨[], itemEnv, csv, pub, store⟩ ++
      storeCandidates ⟨[], itemEnv, csv, pub, store⟩).find?
        (fun x => x.2.1 = some p) = none := by
    rw [List.find?_eq_none]
    intro x hx
    rw [henv, hstore] at hx
    simp only [List.nil_append, List.append_nil] at hx
    have := (csvCandidates_shape ⟨[], itemEnv, csv, pub, store⟩ x hx).1
    simp [this]
  have hpe : p.isEmpty = false := by
    cases p with
    | nil => exact absurd rfl hp
    | cons a t => rfl
  unfold resolve_access_token
  simp only [hpe, Bool.false_eq_true, if_false, hfind]
  rw [henv, hstore, hrest]
  simp only [List.nil_append, List.append_nil]
  show Resolution.token c.1 c.2.1 c.2.2 = _
  rw [hshape.1, hshape.2]

/-- Witness for C10: two list tokens, an empty store, and a preference
that matches nothing select the first list token. -/
theorem claim_C10_witness :
    resolve_access_token
        ⟨[], [], "access-sandbox-aaa,access-sandbox-bbb".toList, [], []⟩
        (some "item9".toList) =
      Resolution.token "access-sandbox-aaa".toList none "PLAID_ACCESS_TOKENS".toList :=
  claim_C10_csv_preference_blind [] "access-sandbox-aaa,access-sandbox-bbb".toList []
    [] "item9".toList ("access-sandbox-aaa".toList, none, "PLAID_ACCESS_TOKENS".toList)
    (by decide) (by decide) (by decide)

/-! ## Claim theorems: pagination, filtering, sorting -/

theorem fetchAux_done (provider : Nat → Page) (f : Nat) (acc : List PlaidTxn)
    (amap : List (Str × PlaidAccount)) (total : Nat) (h : total ≤ acc.length) :
    fetchAux provider f acc amap total = some (acc, amap) := by
  cases f <;> simp [fetchAux, h]

theorem fetchAux_mono (provider : Nat → Page) (f : Nat) :
    ∀ acc amap total r, fetchAux provider f acc amap total = some r →
      fetchAux provider (f + 1) acc amap total = some r := by
  induction f with
  | zero =>
    intro acc amap total r h
    by_cases hle : total ≤ acc.length
    · rw [fetchAux_done provider 0 acc amap total hle] at h
      rw [fetchAux_done provider 1 acc amap total hle]
      exact h
    · simp [fetchAux, hle] at h
  | succ f ih =>
    intro acc amap total r h
    by_cases hle : total ≤ acc.length
    · rw [fetchAux_done provider (f + 1) acc amap total hle] at h
      rw [fetchAux_done provider (f + 2) acc amap total hle]
      exact h
    · rw [fetchAux] at h
      rw [if_neg hle] at h
      show fetchAux provider (f + 1 + 1) acc amap total = some r
      rw [fetchAux, if_neg hle]
      exact ih _ _ _ r h

theorem fetch_mono (provider : Nat → Page) (filters : Filters) (f : Nat) (r)
    (h : fetch_transactions_for_token provider filters f = some r) :
    fetch_transactions_for_token provider filters (f + 1) = some r := by
  unfold fetch_transactions_for_token at h ⊢
  cases hfa : fetchAux provider f (provider 0).txns
      (mergeAccounts [] (provider 0).accounts) (provider 0).total with
  | none => rw [hfa] at h; exact absurd h (by simp)
  | some pr =>
    rw [hfa] at h
    rw [fetchAux_mono provider f _ _ _ pr hfa]
    exact h

theorem fetchAux_step (provider : Nat → Page) (f : Nat) (acc : List PlaidTxn)
    (amap : List (Str × PlaidAccount)) (total : Nat) (h : ¬ total ≤ acc.length) :
    fetchAux provider (f + 1) acc amap total =
      fetchAux provider f (acc ++ (provider acc.length).txns)
        (mergeAccounts amap (provider acc.length).accounts) (provider acc.length).total := by
  rw [fetchAux, if_neg h]

/-- **C1.**  Pagination behaviour of `fetch_transactions_for_token`.  With
the stub reporting `total=250` over pages of 100/100/50 the loop stops
after the third page with exactly 250 accumulated transactions (the result
is the same for every remaining-fuel bound, i.e. the loop terminates).
With the stub that reports `total=10` but never delivers a transaction,
the loop is still running whatever fuel it is granted — the code loops
forever instead of raising the error the specification requires. -/
theorem claim_C1_pagination_termination :
    (∀ k : Nat, fetch_transactions_for_token stub250 ⟨[], [], []⟩ (k + 2) =
        some (List.replicate 250 dummyTxn, []) ∧
        (List.replicate 250 dummyTxn : List PlaidTxn).length = 250) ∧
    (∀ fuel : Nat, fetch_transactions_for_token stubStuck ⟨[], [], []⟩ fuel = none) := by
  constructor
  · intro k
    refine ⟨?_, by simp⟩
    induction k with
    | zero =>
      show fetch_transactions_for_token stub250 ⟨[], [], []⟩ 2 = _
      unfold fetch_transactions_for_token
      have h0 : stub250 0 = ⟨List.replicate 100 dummyTxn, [], 250⟩ := rfl
      rw [h0]
      show (match fetchAux stub250 2 (List.replicate 100 dummyTxn) [] 250 with
        | none => none
        | some (txns, amap) =>
          some (filter_transactions txns amap ⟨[], [], []⟩, amap)) = _
      rw [fetchAux_step stub250 1 _ _ _ (by simp)]
      simp only [List.length_replicate]
      rw [show stub250 100 = ⟨List.replicate 100 dummyTxn, [], 250⟩ from rfl]
      show (match fetchAux stub250 1
          (List.replicate 100 dummyTxn ++ List.replicate 100 dummyTxn) [] 250 with
        | none => none
        | some (txns, amap) =>
          some (filter_transactions txns amap ⟨[], [], []⟩, amap)) = _
      rw [← List.replicate_add]
      rw [fetchAux_step stub250 0 _ _ _ (by simp)]
      simp only [List.length_replicate]
      rw [show stub250 200 = ⟨List.replicate 50 dummyTxn, [], 250⟩ from rfl]
      show (match fetchAux stub250 0
          (List.replicate 200 dummyTxn ++ List.replicate 50 dummyTxn) [] 250 with
        | none => none
        | some (txns, amap) =>
          some (filter_transactions txns amap ⟨[], [], []⟩, amap)) = _
      rw [← List.replicate_add]
      rw [fetchAux_done stub250 0 _ _ _ (by simp)]
      rfl
    | succ k ih => exact fetch_mono stub250 ⟨[], [], []⟩ (k + 2) _ ih
  · intro fuel
    unfold fetch_transactions_for_token
    have hstuck : ∀ f : Nat, fetchAux stubStuck f [] [] 10 = none := by
      intro f
      induction f with
      | zero => simp [fetchAux]
      | succ f ih => simpa [fetchAux, stubStuck, mergeAccounts] using ih
    show (match fetchAux stubStuck fuel [] [] 10 with
      | none => none
      | some (txns, amap) =>
        some (filter_transactions txns amap ⟨[], [], []⟩, amap)) = none
    rw [hstuck fuel]

/-- **C7.**  Account-filter composition: the empty filter is a pass-through,
and a filter whose only criterion is the name keyword `"checking"` keeps
exactly the transactions whose resolved (lower-cased) account name contains
`"checking"` as a substring — equivalently, it excludes exactly those whose
resolved account name lacks the keyword, including transactions with no
resolvable account name. -/
theorem claim_C7_filter_composition :
    (∀ (txns : List PlaidTxn) (amap : List (Str × PlaidAccount)),
      filter_transactions txns amap ⟨[], [], []⟩ = txns) ∧
    (∀ (txns : List PlaidTxn) (amap : List (Str × PlaidAccount)),
      filter_transactions txns amap ⟨[], ["checking".toList], []⟩ =
        txns.filter fun t => isSubstr "checking".toList (filterAccountName amap t)) := by
  constructor
  · intro txns amap
    rfl
  · intro txns amap
    unfold filter_transactions
    simp only [List.isEmpty_nil, List.isEmpty_cons, Bool.and_false, Bool.false_and,
      Bool.false_eq_true, if_false]
    apply List.filter_congr
    intro t _
    cases h : filterAccountName amap t with
    | nil => simp [isSubstr]
    | cons a rest => simp

/-- The sort of an already `keyLe`-sorted list is that list itself. -/
theorem pySortBy_of_pairwise (le : α → α → Bool) :
    ∀ l : List α, List.Pairwise (fun a b => le a b = true) l → pySortBy le l = l := by
  intro l
  induction l with
  | nil => intro _; rfl
  | cons a t ih =>
    intro h
    have ht : pySortBy le t = t := ih (List.Pairwise.of_cons h)
    show insertSorted le a (pySortBy le t) = a :: t
    rw [ht]
    cases t with
    | nil => rfl
    | cons b t2 =>
      have hab : le a b = true := (List.pairwise_cons.mp h).1 b (List.mem_cons_self b t2)
      simp [insertSorted, hab]

/-- **C8.**  Sorting by `(date, transaction_id)` is idempotent — on an
already-sorted record list it returns an identical list — and the concrete
three-record example dated 2024-01-03/2024-01-01/2024-01-02 with ids
c/a/b sorts to [2024-01-01/a, 2024-01-02/b, 2024-01-03/c]. -/
theorem claim_C8_sort_idempotent_and_example :
    (∀ rs : List TxnRecord, List.Pairwise (fun a b => keyLe a b = true) rs →
      sortRecords rs = rs) ∧
    (sortRecords
        [{ date := "2024-01-03".toList, name := [], merchant_name := none, amountCents := 0,
           account_id := [], account_name := [], category := [], transaction_id := "c".toList },
         { date := "2024-01-01".toList, name := [], merchant_name := none, amountCents := 0,
           account_id := [], account_name := [], category := [], transaction_id := "a".toList },
         { date := "2024-01-02".toList, name := [], merchant_name := none, amountCents := 0,
           account_id := [], account_name := [], category := [], transaction_id := "b".toList }] =
        [{ date := "2024-01-01".toList, name := [], merchant_name := none, amountCents := 0,
           account_id := [], account_name := [], category := [], transaction_id := "a".toList },
         { date := "2024-01-02".toList, name := [], merchant_name := none, amountCents := 0,
           account_id := [], account_name := [], category := [], transaction_id := "b".toList },
         { date := "2024-01-03".toList, name := [], merchant_name := none, amountCents := 0,
           account_id := [], account_name := [], category := [], transaction_id := "c".toList }]) := by
  constructor
  · intro rs h
    exact pySortBy_of_pairwise keyLe rs h
  · decide

/-! ## Claim theorems: the access-token format validator -/

/-- **C6 (amended).**  The validator accepts exactly the strings that
strip to `access-<env>-<id>` with `<env>` one of sandbox, development,
production and `<id>` a non-empty run of ASCII letters, digits and
hyphens: every such string is accepted, and every string missing the
`access-` prefix, naming an unrecognized environment, or using characters
outside that identifier alphabet (wrong punctuation) is rejected. -/
theorem claim_C6_validator_characterization (s : Str) :
    is_valid_access_token s = true ↔
      ∃ env id, env ∈ envNames ∧ id ≠ [] ∧ id.all isTokenChar = true ∧
        pyStrip s = "access-".toList ++ env ++ ['-'] ++ id := by
  constructor
  · intro h
    unfold is_valid_access_token at h
    simp only [Bool.and_eq_true] at h
    obtain ⟨hne, hmatch⟩ := h
    unfold matchesTokenPattern at hmatch
    simp only [Bool.and_eq_true, List.any_eq_true] at hmatch
    obtain ⟨hpre, env, henv, hbranch⟩ := hmatch
    obtain ⟨rest, hrest⟩ := List.isPrefixOf_iff_prefix.mp hpre
    unfold envBranch at hbranch
    simp only [Bool.and_eq_true] at hbranch
    have hdrop : (pyStrip s).drop 7 = rest := by
      rw [← hrest]
      have : ("access-".toList : Str).length = 7 := rfl
      rw [← this, List.drop_left]
    rw [hdrop] at hbranch
    obtain ⟨hpre2, hrest2⟩ := hbranch
    obtain ⟨id, hid⟩ := List.isPrefixOf_iff_prefix.mp hpre2
    have hdrop2 : rest.drop (env.length + 1) = id := by
      rw [← hid]
      have : (env ++ ['-'] : Str).length = env.length + 1 := by
        simp
      rw [← this, List.drop_left]
    rw [hdrop2] at hrest2
    refine ⟨env, id, henv, ?_, hrest2.2, ?_⟩
    · intro hnil
      rw [hnil] at hrest2
      simpa using hrest2.1
    · rw [← hrest, ← hid]
      simp
  · rintro ⟨env, id, henv, hidne, hidall, hshape⟩
    unfold is_valid_access_token matchesTokenPattern
    simp only [Bool.and_eq_true, List.any_eq_true]
    have hlen7 : ("access-".toList : Str).length = 7 := rfl
    refine ⟨?_, ?_, env, henv, ?_⟩
    · rw [hshape]
      rfl
    · rw [hshape, List.append_assoc, List.append_assoc]
      exact List.isPrefixOf_iff_prefix.mpr ⟨env ++ (['-'] ++ id), rfl⟩
    · unfold envBranch
      have hdrop : (pyStrip s).drop 7 = env ++ ['-'] ++ id := by
      
        rw [hshape, List.append_assoc, List.append_assoc, ← hlen7, List.drop_left,
          ← List.append_assoc]
      rw [hdrop]
      simp only [Bool.and_eq_true]
      have hdrop2 : (env ++ ['-'] ++ id : Str).drop (env.length + 1) = id := by
        have hl : (env ++ ['-'] : Str).length = env.length + 1 := by simp
        rw [List.append_assoc, ← List.append_assoc, ← hl, List.drop_left]
      refine ⟨List.isPrefixOf_iff_prefix.mpr ⟨id, by rw [List.append_assoc]⟩, ?_⟩
      rw [hdrop2]
      refine ⟨?_, hidall⟩
      cases id with
      | nil => exact absurd rfl hidne
      | cons a t => rfl

/-- **C6 counterexample.**  `"access-sandbox-a_b"` is of the form
`access-<env>-<id>` with a recognized environment and a non-empty opaque
identifier (`a_b`), yet the validator rejects it: the underscore falls
outside `ACCESS_TOKEN_PATTERN`'s identifier class `[A-Za-z0-9-]`, so the
claim as stated (acceptance for every non-empty identifier) is false. -/
theorem claim_C6_counterexample :
    "access-sandbox-a_b".toList =
        "access-".toList ++ "sandbox".toList ++ ['-'] ++ "a_b".toList ∧
      "sandbox".toList ∈ envNames ∧
      "a_b".toList ≠ [] ∧
      is_valid_access_token "access-sandbox-a_b".toList = false := by
  refine ⟨rfl, by decide, by decide, by decide⟩

/-! ## Lemmas about the line matcher -/

theorem litP_append (pat s : Str) : litP pat (pat ++ s) = some s := by
  induction pat with
  | nil => rfl
  | cons p ps ih => simpa [litP] using ih

theorem litP_some_length (pat : Str) :
    ∀ s t, litP pat s = some t → t.length + pat.length = s.length := by
  induction pat with
  | nil =>
    intro s t h
    simp [litP] at h
    simp [h]
  | cons p ps ih =>
    intro s t h
    cases s with
    | nil => simp [litP] at h
    | cons c cs =>
      by_cases hc : c = p
      · simp only [litP, hc, if_true] at h
        have := ih cs t h
        simp [List.length_cons]
        omega
      · simp [litP, hc] at h

theorem takeWhile1_none_of_head (p : Char → Bool) (b : Str)
    (hb : ∀ c, b.head? = some c → p c = false) : takeWhile1 p b = none := by
  cases b with
  | nil => rfl
  | cons c t => simp [takeWhile1, hb c rfl]

theorem takeWhile1_split (p : Char → Bool) (a b : Str)
    (ha : a ≠ []) (hall : ∀ c ∈ a, p c = true)
    (hb : ∀ c, b.head? = some c → p c = false) :
    takeWhile1 p (a ++ b) = some (a, b) := by
  induction a with
  | nil => exact absurd rfl ha
  | cons c cs ih =>
    have hc : p c = true := hall c (List.mem_cons_self c cs)
    cases cs with
    | nil =>
      show (if p c = true then
          match takeWhile1 p b with
          | some (run, rest) => some (c :: run, rest)
          | none => some ([c], b)
        else none) = some ([c], b)
      rw [if_pos hc, takeWhile1_none_of_head p b hb]
    | cons c2 cs2 =>
      have ih2 := ih (by simp) (fun x hx => hall x (List.mem_cons_of_mem c hx))
      show (if p c = true then
          match takeWhile1 p (c2 :: cs2 ++ b) with
          | some (run, rest) => some (c :: run, rest)
          | none => some ([c], c2 :: cs2 ++ b)
        else none) = some (c :: c2 :: cs2, b)
      rw [if_pos hc, ih2]

theorem takeWhile1_some_length (p : Char → Bool) :
    ∀ s run rest, takeWhile1 p s = some (run, rest) →
      run.length + rest.length = s.length := by
  intro s
  induction s with
  | nil => intro run rest h; simp [takeWhile1] at h
  | cons c cs ih =>
    intro run rest h
    by_cases hc : p c
    · simp only [takeWhile1, hc, if_true] at h
      cases htw : takeWhile1 p cs with
      | none =>
        rw [htw] at h
        simp at h
        obtain ⟨h1, h2⟩ := h
        subst h1; subst h2
        simp
        omega
      | some pr =>
        rw [htw] at h
        simp at h
        obtain ⟨h1, h2⟩ := h
        have := ih pr.1 pr.2 (by rw [htw])
        subst h1; subst h2
        simp [List.length_cons]
        omega
    · simp [takeWhile1, hc] at h

theorem signSplit_length (s : Str) :
    (signSplit s).1.length + (signSplit s).2.length = s.length := by
  cases s with
  | nil => rfl
  | cons c cs =>
    by_cases hc : c = '+' ∨ c = '-'
    · have : (c = '+' || c = '-') = true := by
        rcases hc with h | h <;> simp [h]
      simp [signSplit, this]
      omega
    · have : (c = '+' || c = '-') = false := by
        push_neg at hc
        simp [hc.1, hc.2]
      simp [signSplit, this]

theorem matchAt_some_length (s : Str) (g : Str × Str × Str) (suf : Str)
    (h : matchAt s = some (g, suf)) : suf.length < s.length := by
  unfold matchAt at h
  cases h1 : litP "Date: ".toList s with
  | none => rw [h1] at h; exact absurd h (by simp)
  | some s1 =>
    rw [h1, Option.some_bind] at h
    cases h2 : takeWhile1 isDateCh s1 with
    | none => rw [h2] at h; exact absurd h (by simp)
    | some g1s2 =>
      rw [h2, Option.some_bind] at h
      cases h3 : litP ", Name: ".toList g1s2.2 with
      | none => rw [h3] at h; exact absurd h (by simp)
      | some s3 =>
        rw [h3, Option.some_bind] at h
        cases h4 : takeWhile1 (fun c => !(c = ',')) s3 with
        | none => rw [h4] at h; exact absurd h (by simp)
        | some g2s4 =>
          rw [h4, Option.some_bind] at h
          cases h5 : litP ", Amount: $".toList g2s4.2 with
          | none => rw [h5] at h; exact absurd h (by simp)
          | some s5 =>
            rw [h5, Option.some_bind] at h
            cases h6 : takeWhile1 isAmtCh (signSplit s5).2 with
            | none => rw [h6] at h; exact absurd h (by simp)
            | some g3s7 =>
              rw [h6, Option.some_bind] at h
              simp only [Option.some_inj] at h
              have hsuf : suf = g3s7.2 := by
                have := congrArg Prod.snd h
                exact this.symm
              have l1 := litP_some_length _ _ _ h1
              have l2 := takeWhile1_some_length _ _ _ _ (by rw [h2])
              have l3 := litP_some_length _ _ _ h3
              have l4 := takeWhile1_some_length _ _ _ _ (by rw [h4])
              have l5 := litP_some_length _ _ _ h5
              have l6 := takeWhile1_some_length _ _ _ _ (by rw [h6])
              have l7 := signSplit_length s5
              have e1 : ("Date: ".toList : Str).length = 6 := rfl
              rw [hsuf]
              omega

/-! ## Lemmas about the scan (`re.findall`) -/

theorem matchAt_nil : matchAt [] = none := rfl

theorem matchAt_cons_ne (c : Char) (t : Str) (hc : c ≠ 'D') :
    matchAt (c :: t) = none := by
  unfold matchAt
  have : litP "Date: ".toList (c :: t) = none := by
    show (if c = 'D' then litP "ate: ".toList t else none) = none
    rw [if_neg hc]
  rw [this, Option.none_bind]

theorem findAllAux_nil (f : Nat) : findAllAux f [] = [] := by
  cases f <;> rfl

theorem findAllAux_congr :
    ∀ (n : Nat) (s : Str) (f₁ f₂ : Nat), s.length ≤ n → s.length ≤ f₁ →
      s.length ≤ f₂ → findAllAux f₁ s = findAllAux f₂ s := by
  intro n
  induction n with
  | zero =>
    intro s f1 f2 h0 _ _
    have : s = [] := List.length_eq_zero.mp (Nat.le_zero.mp h0)
    rw [this, findAllAux_nil, findAllAux_nil]
  | succ n ih =>
    intro s f1 f2 hn h1 h2
    cases s with
    | nil => rw [findAllAux_nil, findAllAux_nil]
    | cons c t =>
      have hlen : (c :: t : Str).length = t.length + 1 := rfl
      cases f1 with
      | zero => rw [hlen] at h1; omega
      | succ f1 =>
        cases f2 with
        | zero => rw [hlen] at h2; omega
        | succ f2 =>
          show (match matchAt (c :: t) with
            | some (g, suffix) => g :: findAllAux f1 suffix
            | none => findAllAux f1 t) =
            (match matchAt (c :: t) with
            | some (g, suffix) => g :: findAllAux f2 suffix
            | none => findAllAux f2 t)
          cases hm : matchAt (c :: t) with
          | none =>
            exact ih t f1 f2 (by rw [hlen] at hn; omega) (by rw [hlen] at h1; omega)
              (by rw [hlen] at h2; omega)
          | some gs =>
            have hlt := matchAt_some_length (c :: t) gs.1 gs.2 (by rw [hm])
            rw [hlen] at hlt
            have := ih gs.2 f1 f2 (by rw [hlen] at hn; omega)
              (by rw [hlen] at h1; omega) (by rw [hlen] at h2; omega)
            simp [this]

theorem findAll_cons_none (c : Char) (t : Str) (hm : matchAt (c :: t) = none) :
    findAll (c :: t) = findAll t := by
  show findAllAux (t.length + 1) (c :: t) = findAll t
  show (match matchAt (c :: t) with
    | some (g, suffix) => g :: findAllAux t.length suffix
    | none => findAllAux t.length t) = findAll t
  rw [hm]
  rfl

theorem findAll_cons_some (c : Char) (t : Str) (g : Str × Str × Str) (suf : Str)
    (hm : matchAt (c :: t) = some (g, suf)) :
    findAll (c :: t) = g :: findAll suf := by
  have hlt := matchAt_some_length (c :: t) g suf hm
  show findAllAux (t.length + 1) (c :: t) = g :: findAll suf
  show (match matchAt (c :: t) with
    | some (g, suffix) => g :: findAllAux t.length suffix
    | none => findAllAux t.length t) = g :: findAll suf
  rw [hm]
  have heq : findAllAux t.length suf = findAllAux suf.length suf :=
    findAllAux_congr t.length suf t.length suf.length
      (by simp at hlt; omega) (by simp at hlt; omega) (by omega)
  show g :: findAllAux t.length suf = g :: findAll suf
  rw [heq]
  rfl

theorem findAll_skip (p s : Str) (hp : 'D' ∉ p) : findAll (p ++ s) = findAll s := by
  induction p with
  | nil => rfl
  | cons c t ih =>
    have hc : c ≠ 'D' := fun h => hp (h ▸ List.mem_cons_self c t)
    rw [List.cons_append,
      findAll_cons_none c (t ++ s) (matchAt_cons_ne c (t ++ s) hc)]
    exact ih (fun h => hp (List.mem_cons_of_mem c h))

theorem matchAt_some_of_ne_nil (s : Str) (g : Str × Str × Str) (suf : Str)
    (hm : matchAt s = some (g, suf)) : ∃ c t, s = c :: t := by
  cases s with
  | nil => rw [matchAt_nil] at hm; exact absurd hm (by simp)
  | cons c t => exact ⟨c, t, rfl⟩

theorem findAll_of_matchAt (s : Str) (g : Str × Str × Str) (suf : Str)
    (hm : matchAt s = some (g, suf)) : findAll s = g :: findAll suf := by
  obtain ⟨c, t, rfl⟩ := matchAt_some_of_ne_nil s g suf hm
  exact findAll_cons_some c t g suf hm

/-! ## Lemmas about digits and amount formatting -/

theorem isDigitCh_not_space (c : Char) (h : isDigitCh c = true) : isPySpace c = false := by
  by_contra hs
  rw [Bool.not_eq_false] at hs
  have hd : c = ' ' ∨ c = '\t' ∨ c = '\n' ∨ c = '\x0d' ∨ c = '\x0b' ∨ c = '\x0c' := by
    simpa [isPySpace, or_assoc] using hs
  rcases hd with h1 | h1 | h1 | h1 | h1 | h1 <;> (subst h1; exact absurd h (by decide))

theorem isDigitCh_not_sign (c : Char) (h : isDigitCh c = true) :
    (c = '+' || c = '-') = false := by
  by_contra hs
  rw [Bool.not_eq_false, Bool.or_eq_true, decide_eq_true_eq, decide_eq_true_eq] at hs
  rcases hs with h1 | h1 <;> (subst h1; exact absurd h (by decide))

theorem isDigitCh_ne_dot (c : Char) (h : isDigitCh c = true) : ¬(c = '.') := by
  intro h1; subst h1; exact absurd h (by decide)

theorem digitChar_digit (m : Nat) (h : m < 10) : isDigitCh (digitChar m) = true := by
  interval_cases m <;> decide

theorem digitChar_toNat (m : Nat) (h : m < 10) : (digitChar m).toNat = 48 + m := by
  interval_cases m <;> decide

theorem natToCharsAux_all_digit :
    ∀ (fuel n : Nat), n < fuel → ∀ c ∈ natToCharsAux fuel n, isDigitCh c = true := by
  intro fuel
  induction fuel with
  | zero => intro n h; omega
  | succ fuel ih =>
    intro n _ c hc
    unfold natToCharsAux at hc
    by_cases h : n < 10
    · rw [if_pos h, List.mem_singleton] at hc
      rw [hc]
      exact digitChar_digit n h
    · rw [if_neg h, List.mem_append] at hc
      rcases hc with hc | hc
      · exact ih (n / 10) (by omega) c hc
      · rw [List.mem_singleton] at hc
        rw [hc]
        exact digitChar_digit (n % 10) (Nat.mod_lt n (by omega))

theorem natToChars_all_digit (n : Nat) : ∀ c ∈ natToChars n, isDigitCh c = true :=
  natToCharsAux_all_digit (n + 1) n (by omega)

theorem natToChars_ne_nil (n : Nat) : natToChars n ≠ [] := by
  unfold natToChars natToCharsAux
  by_cases h : n < 10
  · simp [h]
  · simp [h]

theorem charsToNat_aux (b : Str) :
    ∀ init : Nat, b.foldl (fun a c => a * 10 + (c.toNat - 48)) init =
      init * 10 ^ b.length + b.foldl (fun a c => a * 10 + (c.toNat - 48)) 0 := by
  induction b with
  | nil => intro init; simp
  | cons c t ih =>
    intro init
    show t.foldl _ (init * 10 + (c.toNat - 48)) =
      init * 10 ^ (t.length + 1) + t.foldl _ (0 * 10 + (c.toNat - 48))
    rw [ih (init * 10 + (c.toNat - 48)), ih (0 * 10 + (c.toNat - 48))]
    ring

theorem charsToNat_append (a b : Str) :
    charsToNat (a ++ b) = charsToNat a * 10 ^ b.length + charsToNat b := by
  unfold charsToNat
  rw [List.foldl_append]
  exact charsToNat_aux b _

theorem charsToNat_natToCharsAux :
    ∀ (fuel n : Nat), n < fuel → charsToNat (natToCharsAux fuel n) = n := by
  intro fuel
  induction fuel with
  | zero => intro n h; omega
  | succ fuel ih =>
    intro n _
    unfold natToCharsAux
    by_cases h : n < 10
    · rw [if_pos h]
      show 0 * 10 + ((digitChar n).toNat - 48) = n
      rw [digitChar_toNat n h]
      omega
    · rw [if_neg h, charsToNat_append, ih (n / 10) (by omega)]
      have hone : charsToNat [digitChar (n % 10)] = n % 10 := by
        show 0 * 10 + ((digitChar (n % 10)).toNat - 48) = n % 10
        rw [digitChar_toNat (n % 10) (Nat.mod_lt n (by omega))]
        omega
      rw [hone]
      simp
      omega

theorem charsToNat_natToChars (n : Nat) : charsToNat (natToChars n) = n :=
  charsToNat_natToCharsAux (n + 1) n (by omega)

theorem charsToNat_twoDigits (r : Nat) (h : r < 100) : charsToNat (twoDigits r) = r := by
  show (0 * 10 + ((digitChar (r / 10)).toNat - 48)) * 10 + ((digitChar (r % 10)).toNat - 48) = r
  rw [digitChar_toNat (r / 10) (by omega), digitChar_toNat (r % 10) (Nat.mod_lt r (by omega))]
  omega

theorem twoDigits_all_digit (r : Nat) (h : r < 100) :
    ∀ c ∈ twoDigits r, isDigitCh c = true := by
  intro c hc
  unfold twoDigits at hc
  rw [List.mem_cons, List.mem_singleton] at hc
  rcases hc with hc | hc <;> rw [hc]
  · exact digitChar_digit (r / 10) (by omega)
  · exact digitChar_digit (r % 10) (Nat.mod_lt r (by omega))

theorem mem_of_head? {l : Str} {c : Char} (h : l.head? = some c) : c ∈ l := by
  cases l with
  | nil => simp at h
  | cons a t =>
    rw [List.head?_cons, Option.some_inj] at h
    rw [← h]
    exact List.mem_cons_self a t

theorem pyStrip_eq_self (s : Str) (h : ∀ c ∈ s, isPySpace c = false) : pyStrip s = s := by
  unfold pyStrip
  have h1 : s.dropWhile isPySpace = s :=
    dropWhile_of_head?_false _ _ (fun c hc => h c (mem_of_head? hc))
  rw [h1]
  have h2 : s.reverse.dropWhile isPySpace = s.reverse :=
    dropWhile_of_head?_false _ _ (fun c hc =>
      h c (List.mem_reverse.mp (mem_of_head? hc)))
  rw [h2, List.reverse_reverse]

theorem takeWhile_append_split (p : Char → Bool) (a b : Str)
    (hall : ∀ c ∈ a, p c = true) (hb : ∀ c, b.head? = some c → p c = false) :
    (a ++ b).takeWhile p = a := by
  induction a with
  | nil =>
    cases b with
    | nil => rfl
    | cons c t => simp [List.takeWhile_cons, hb c rfl]
  | cons c cs ih =>
    rw [List.cons_append, List.takeWhile_cons, hall c (List.mem_cons_self c cs)]
    rw [ih (fun x hx => hall x (List.mem_cons_of_mem c hx))]
    rfl

theorem filter_eq_nil_of_all (p : Char → Bool) (a : Str)
    (h : ∀ c ∈ a, p c = false) : a.filter p = [] := by
  induction a with
  | nil => rfl
  | cons c cs ih =>
    rw [List.filter_cons, h c (List.mem_cons_self c cs)]
    simp only [Bool.false_eq_true, if_false]
    exact ih (fun x hx => h x (List.mem_cons_of_mem c hx))

/-- Evaluate `pyFloatQ` on a string whose sign split exposes
`<digits>.<two digits>`. -/
theorem pyFloatQ_eval (s sgn : Str) (q r : Nat) (hr : r < 100)
    (hsign : signSplit s = (sgn, natToChars q ++ '.' :: twoDigits r)) :
    pyFloatQ s =
      some (if sgn = ['-'] then -((q * 100 + r : ℚ) / 100)
        else (q * 100 + r : ℚ) / 100) := by
  have hqd := natToChars_all_digit q
  have htd := twoDigits_all_digit r hr
  have hqne := natToChars_ne_nil q
  have hbody_ne : (natToChars q ++ '.' :: twoDigits r).isEmpty = false := by
    cases hq : natToChars q with
    | nil => exact absurd hq hqne
    | cons d tl => rfl
  have hall : (natToChars q ++ '.' :: twoDigits r).all isAmtCh = true := by
    rw [List.all_append, List.all_cons]
    have h1 : (natToChars q).all isAmtCh = true := by
      rw [List.all_eq_true]
      intro c hc
      simp [isAmtCh, hqd c hc]
    have h2 : (twoDigits r).all isAmtCh = true := by
      rw [List.all_eq_true]
      intro c hc
      simp [isAmtCh, htd c hc]
    rw [h1, h2]
    decide
  have hfilter : ((natToChars q ++ '.' :: twoDigits r).filter
      (fun c => c = '.')).length = 1 := by
    rw [List.filter_append, filter_eq_nil_of_all _ _
      (fun c hc => by simpa using isDigitCh_ne_dot c (hqd c hc))]
    rw [List.filter_cons]
    simp only [decide_True, if_true, List.nil_append]
    rw [filter_eq_nil_of_all _ _
      (fun c hc => by simpa using isDigitCh_ne_dot c (htd c hc))]
    rfl
  have hip : (natToChars q ++ '.' :: twoDigits r).takeWhile (fun c => !(c = '.')) =
      natToChars q := by
    refine takeWhile_append_split _ _ _ ?_ ?_
    · intro c hc
      simpa using isDigitCh_ne_dot c (hqd c hc)
    · intro c hc
      rw [List.head?_cons, Option.some_inj] at hc
      rw [← hc]
      decide
  have hiplen : (natToChars q).length ≠ (natToChars q ++ '.' :: twoDigits r).length := by
    rw [List.length_append]
    simp
  have hfp : (natToChars q ++ '.' :: twoDigits r).drop ((natToChars q).length + 1) =
      twoDigits r := by
    have hsplit : (natToChars q ++ '.' :: twoDigits r) =
        (natToChars q ++ ['.']) ++ twoDigits r := by
      rw [List.append_assoc]
      rfl
    have hl : (natToChars q ++ ['.'] : Str).length = (natToChars q).length + 1 := by
      rw [List.length_append]
      rfl
    rw [hsplit, ← hl, List.drop_left]
  have hipne : (natToChars q).isEmpty = false := by
    cases hq : natToChars q with
    | nil => exact absurd hq hqne
    | cons d tl => rfl
  have hval : charsToNat (natToChars q ++ twoDigits r) = q * 100 + r := by
    rw [charsToNat_append, charsToNat_natToChars, charsToNat_twoDigits r hr]
    rfl
  unfold pyFloatQ
  rw [hsign]
  simp only [hbody_ne, Bool.false_eq_true, if_false, hall, Bool.not_true, hfilter, hip,
    hiplen, hfp, hipne, Bool.false_and, hval]
  have hl2 : (twoDigits r).length = 2 := rfl
  rw [hl2]
  norm_num

/-- The amount written by the flat-file writer reads back, through
Python `float`, as exactly the two-decimal value it denotes. -/
theorem pyFloatQ_formatCents (c : Int) :
    pyFloatQ (pyStrip (formatCents c)) = some ((c : ℚ) / 100) := by
  have hmod : c.natAbs % 100 < 100 := Nat.mod_lt _ (by omega)
  have hnospace : ∀ ch ∈ formatCents c, isPySpace ch = false := by
    intro ch hch
    unfold formatCents at hch
    rw [List.append_assoc, List.append_assoc, List.mem_append] at hch
    rcases hch with hch | hch
    · by_cases hneg : c < 0
      · rw [if_pos hneg, List.mem_singleton] at hch
        rw [hch]
        decide
      · rw [if_neg hneg] at hch
        simp at hch
    · rw [List.mem_append] at hch
      rcases hch with hch | hch
      · exact isDigitCh_not_space ch (natToChars_all_digit _ ch hch)
      · rw [List.mem_append] at hch
        rcases hch with hch | hch
        · rw [List.mem_singleton] at hch
          rw [hch]
          decide
        · exact isDigitCh_not_space ch (twoDigits_all_digit _ hmod ch hch)
  rw [pyStrip_eq_self _ hnospace]
  have hcast : ((c.natAbs / 100 : ℕ) : ℚ) * 100 + ((c.natAbs % 100 : ℕ) : ℚ) =
      ((c.natAbs : ℕ) : ℚ) := by
    have h2 : ((c.natAbs / 100 * 100 + c.natAbs % 100 : ℕ) : ℚ) = (c.natAbs : ℚ) := by
      have h3 : c.natAbs / 100 * 100 + c.natAbs % 100 = c.natAbs := by
        have := Nat.div_add_mod c.natAbs 100
        omega
      exact_mod_cast congrArg (Nat.cast : ℕ → ℚ) h3
    push_cast at h2
    linarith [h2]
  by_cases hneg : c < 0
  · have hform : formatCents c =
        '-' :: (natToChars (c.natAbs / 100) ++ '.' :: twoDigits (c.natAbs % 100)) := by
      unfold formatCents
      rw [if_pos hneg, List.append_assoc, List.append_assoc]
      rfl
    have hsign : signSplit (formatCents c) =
        (['-'], natToChars (c.natAbs / 100) ++ '.' :: twoDigits (c.natAbs % 100)) := by
      rw [hform]
      rfl
    rw [pyFloatQ_eval _ _ _ _ hmod hsign]
    rw [if_pos rfl]
    have habs : ((c.natAbs : ℕ) : ℚ) = -(c : ℚ) := by
      rw [Int.cast_natAbs, abs_of_neg hneg]
      push_cast
      ring
    rw [hcast, habs]
    ring_nf
  · have hform : formatCents c =
        natToChars (c.natAbs / 100) ++ '.' :: twoDigits (c.natAbs % 100) := by
      unfold formatCents
      rw [if_neg hneg, List.nil_append, List.append_assoc]
      rfl
    obtain ⟨d, tl, hdq⟩ : ∃ d tl, natToChars (c.natAbs / 100) = d :: tl := by
      cases hq : natToChars (c.natAbs / 100) with
      | nil => exact absurd hq (natToChars_ne_nil _)
      | cons d tl => exact ⟨d, tl, rfl⟩
    have hd : isDigitCh d = true :=
      natToChars_all_digit _ d (by rw [hdq]; exact List.mem_cons_self d tl)
    have hsign : signSplit (formatCents c) =
        ([], natToChars (c.natAbs / 100) ++ '.' :: twoDigits (c.natAbs % 100)) := by
      rw [hform, hdq, List.cons_append]
      show (if (d = '+' || d = '-') = true
        then ([d], tl ++ '.' :: twoDigits (c.natAbs % 100))
        else ([], d :: (tl ++ '.' :: twoDigits (c.natAbs % 100)))) = _
      rw [if_neg (by rw [isDigitCh_not_sign d hd]; exact Bool.false_ne_true)]
    rw [pyFloatQ_eval _ _ _ _ hmod hsign]
    rw [if_neg (by decide)]
    have habs : ((c.natAbs : ℕ) : ℚ) = (c : ℚ) := by
      rw [Int.cast_natAbs, abs_of_nonneg (Int.not_lt.mp hneg)]
    rw [hcast, habs]

/-! ## Lemmas about matching one written line -/

theorem dateOk_chars (s : Str) (h : dateOk s = true) :
    s ≠ [] ∧ ∀ c ∈ s, isDateCh c = true := by
  unfold dateOk at h
  split at h
  next r2 heq =>
    split at h
    next d heq2 =>
      have hdall : d.all isDigitCh = true := by
        simp only [Bool.and_eq_true] at h
        exact h.1.1.1.1.1.2
      constructor
      · intro hnil
        rw [hnil] at heq
        simp [List.dropWhile] at heq
      · intro c hc
        have hs : s.takeWhile isDigitCh ++ ('-' :: r2) = s := by
          rw [← heq]
          exact List.takeWhile_append_dropWhile isDigitCh s
        have hr2 : r2.takeWhile isDigitCh ++ ('-' :: d) = r2 := by
          rw [← heq2]
          exact List.takeWhile_append_dropWhile isDigitCh r2
        rw [← hs, List.mem_append] at hc
        rcases hc with hc | hc
        · simp [isDateCh, List.mem_takeWhile_imp hc]
        · rw [List.mem_cons] at hc
          rcases hc with hc | hc
          · rw [hc]; decide
          · rw [← hr2, List.mem_append] at hc
            rcases hc with hc | hc
            · simp [isDateCh, List.mem_takeWhile_imp hc]
            · rw [List.mem_cons] at hc
              rcases hc with hc | hc
              · rw [hc]; decide
              · simp [isDateCh, List.all_eq_true.mp hdall c hc]
    next heq2 => exact absurd h (by simp)
  next heq => exact absurd h (by simp)

theorem body_all_amt (q r : Nat) (hr : r < 100) :
    ∀ c ∈ natToChars q ++ '.' :: twoDigits r, isAmtCh c = true := by
  intro c hc
  rw [List.mem_append] at hc
  rcases hc with hc | hc
  · simp [isAmtCh, natToChars_all_digit q c hc]
  · rw [List.mem_cons] at hc
    rcases hc with hc | hc
    · rw [hc]; decide
    · simp [isAmtCh, twoDigits_all_digit r hr c hc]

theorem amount_sign_split (c : Int) (tail : Str) :
    signSplit (formatCents c ++ tail) =
      ((if c < 0 then ['-'] else []),
        (natToChars (c.natAbs / 100) ++ '.' :: twoDigits (c.natAbs % 100)) ++ tail) := by
  by_cases hneg : c < 0
  · have hform : formatCents c =
        '-' :: (natToChars (c.natAbs / 100) ++ '.' :: twoDigits (c.natAbs % 100)) := by
      unfold formatCents
      rw [if_pos hneg, List.append_assoc, List.append_assoc]
      rfl
    rw [hform, if_pos hneg, List.cons_append]
    rfl
  · have hform : formatCents c =
        natToChars (c.natAbs / 100) ++ '.' :: twoDigits (c.natAbs % 100) := by
      unfold formatCents
      rw [if_neg hneg, List.nil_append, List.append_assoc]
      rfl
    rw [hform, if_neg hneg]
    obtain ⟨d, tl, hdq⟩ : ∃ d tl, natToChars (c.natAbs / 100) = d :: tl := by
      cases hq : natToChars (c.natAbs / 100) with
      | nil => exact absurd hq (natToChars_ne_nil _)
      | cons d tl => exact ⟨d, tl, rfl⟩
    have hd : isDigitCh d = true :=
      natToChars_all_digit _ d (by rw [hdq]; exact List.mem_cons_self d tl)
    rw [hdq, List.cons_append, List.cons_append]
    show (if (d = '+' || d = '-') = true
      then ([d], (tl ++ '.' :: twoDigits (c.natAbs % 100)) ++ tail)
      else ([], d :: ((tl ++ '.' :: twoDigits (c.natAbs % 100)) ++ tail))) = _
    rw [if_neg (by rw [isDigitCh_not_sign d hd]; exact Bool.false_ne_true)]

theorem amount_restore (c : Int) :
    (if c < 0 then ['-'] else []) ++
      (natToChars (c.natAbs / 100) ++ '.' :: twoDigits (c.natAbs % 100)) = formatCents c := by
  unfold formatCents
  rw [List.append_assoc, List.append_assoc]
  rfl

/-- Matching the line written for a good record consumes exactly its
`Date`/`Name`/`Amount` fields and leaves the optional account part, the
newline and the rest of the input. -/
theorem matchAt_line (r : TxnRecord) (s : Str) (hg : goodRec r) :
    matchAt (lineFor r ++ s) =
      some (groupsOf r,
        (if r.account_name.isEmpty then [] else ", Account: ".toList ++ r.account_name)
          ++ '\n' :: s) := by
  obtain ⟨hdate, hname, hnocomma, hnoD⟩ := hg
  obtain ⟨hdne, hdch⟩ := dateOk_chars r.date hdate
  have hmod : r.amountCents.natAbs % 100 < 100 := Nat.mod_lt _ (by omega)
  have hnorm : lineFor r ++ s =
      "Date: ".toList ++ (r.date ++ (", Name: ".toList ++ (r.name ++ (", Amount: $".toList ++
        (formatCents r.amountCents ++
          ((if r.account_name.isEmpty then [] else ", Account: ".toList ++ r.account_name)
            ++ '\n' :: s)))))) := by
    unfold lineFor
    simp only [List.append_assoc, List.cons_append, List.nil_append]
  rw [hnorm]
  unfold matchAt
  rw [litP_append, Option.some_bind]
  rw [takeWhile1_split isDateCh r.date _ hdne hdch (by
    intro c hc
    rw [show ((", Name: ".toList ++ (r.name ++ (", Amount: $".toList ++
        (formatCents r.amountCents ++
          ((if r.account_name.isEmpty then [] else ", Account: ".toList ++ r.account_name)
            ++ '\n' :: s)))) : Str)).head? = some ',' from rfl, Option.some_inj] at hc
    rw [← hc]
    decide)]
  rw [Option.some_bind]
  rw [litP_append, Option.some_bind]
  rw [takeWhile1_split (fun c => !(c = ',')) r.name _ hname (by
    intro c hc
    have hcne : c ≠ ',' := fun h => hnocomma (h ▸ hc)
    simp [hcne]) (by
    intro c hc
    rw [show ((", Amount: $".toList ++
        (formatCents r.amountCents ++
          ((if r.account_name.isEmpty then [] else ", Account: ".toList ++ r.account_name)
            ++ '\n' :: s)) : Str)).head? = some ',' from rfl, Option.some_inj] at hc
    rw [← hc]
    decide)]
  rw [Option.some_bind]
  rw [litP_append, Option.some_bind]
  rw [amount_sign_split]
  rw [takeWhile1_split isAmtCh _ _ (by
    cases hq : natToChars (r.amountCents.natAbs / 100) with
    | nil => exact absurd hq (natToChars_ne_nil _)
    | cons d tl => simp) (body_all_amt _ _ hmod) (by
    intro c hc
    by_cases hac : r.account_name.isEmpty
    · rw [if_pos hac] at hc
      rw [show ((([] : Str) ++ '\n' :: s)).head? = some '\n' from rfl, Option.some_inj] at hc
      rw [← hc]
      decide
    · rw [if_neg hac] at hc
      rw [show (((", Account: ".toList ++ r.account_name : Str) ++ '\n' :: s)).head? =
        some ',' from rfl, Option.some_inj] at hc
      rw [← hc]
      decide)]
  rw [Option.some_bind, amount_restore]
  rfl

/-! ## Assembling the round trip -/

theorem findAll_lines (rs : List TxnRecord) (s : Str) (h : ∀ r ∈ rs, goodRec r) :
    findAll ((rs.map lineFor).flatten ++ s) = rs.map groupsOf ++ findAll s := by
  induction rs with
  | nil => simp
  | cons r rest ih =>
    rw [List.map_cons, List.flatten_cons, List.append_assoc]
    rw [findAll_of_matchAt _ _ _ (matchAt_line r _ (h r (List.mem_cons_self r rest)))]
    have hacct : 'D' ∉ ((if r.account_name.isEmpty then []
        else ", Account: ".toList ++ r.account_name) ++ ['\n'] : Str) := by
      intro hmem
      rw [List.mem_append] at hmem
      rcases hmem with hmem | hmem
      · by_cases hac : r.account_name.isEmpty
        · rw [if_pos hac] at hmem
          simp at hmem
        · rw [if_neg hac, List.mem_append] at hmem
          rcases hmem with hmem | hmem
          · exact absurd hmem (by decide)
          · exact (h r (List.mem_cons_self r rest)).2.2.2 hmem
      · exact absurd hmem (by decide)
    have hshape : ((if r.account_name.isEmpty then []
          else ", Account: ".toList ++ r.account_name) ++ '\n' :: ((rest.map lineFor).flatten ++ s) : Str) =
        ((if r.account_name.isEmpty then []
          else ", Account: ".toList ++ r.account_name) ++ ['\n']) ++ ((rest.map lineFor).flatten ++ s) := by
      rw [List.append_assoc]
      rfl
    rw [hshape, findAll_skip _ _ hacct]
    rw [ih (fun x hx => h x (List.mem_cons_of_mem r hx))]
    rfl

theorem noD_fileHeader (rs : List TxnRecord) (startD endD : Str)
    (hs : 'D' ∉ startD) (he : 'D' ∉ endD) : 'D' ∉ fileHeader rs startD endD := by
  unfold fileHeader
  intro hmem
  rw [List.mem_append] at hmem
  rcases hmem with h1 | hmem
  · exact absurd h1 (by decide)
  rw [List.mem_append] at hmem
  rcases hmem with h1 | hmem
  · exact absurd (natToChars_all_digit rs.length 'D' h1) (by decide)
  rw [List.mem_append] at hmem
  rcases hmem with h1 | hmem
  · exact absurd h1 (by decide)
  rw [List.mem_append] at hmem
  rcases hmem with h1 | hmem
  · exact hs h1
  rw [List.mem_append] at hmem
  rcases hmem with h1 | hmem
  · exact absurd h1 (by decide)
  rw [List.mem_append] at hmem
  rcases hmem with h1 | hmem
  · exact he h1
  rw [List.mem_append] at hmem
  rcases hmem with h1 | hmem
  · exact absurd h1 (by decide)
  rw [List.mem_append] at hmem
  rcases hmem with h1 | h1
  · rw [List.mem_replicate] at h1
    exact absurd h1.2 (by decide)
  · exact absurd h1 (by decide)

theorem noD_fileFooter (fname : Str) (hf : 'D' ∉ fname) : 'D' ∉ fileFooter fname := by
  unfold fileFooter
  intro hmem
  rw [List.mem_cons] at hmem
  rcases hmem with h1 | hmem
  · exact absurd h1 (by decide)
  rw [List.mem_append] at hmem
  rcases hmem with h1 | hmem
  · rw [List.mem_replicate] at h1
    exact absurd h1.2 (by decide)
  rw [List.mem_cons] at hmem
  rcases hmem with h1 | hmem
  · exact absurd h1 (by decide)
  rw [List.mem_append] at hmem
  rcases hmem with h1 | hmem
  · exact absurd h1 (by decide)
  rw [List.mem_append] at hmem
  rcases hmem with h1 | h1
  · exact hf h1
  · exact absurd h1 (by decide)

theorem expectedFrom_length : ∀ (i : Nat) (rs : List TxnRecord),
    (expectedFrom i rs).length = rs.length := by
  intro i rs
  induction rs generalizing i with
  | nil => rfl
  | cons r rest ih =>
    show (expectedFrom i (r :: rest)).length = rest.length + 1
    unfold expectedFrom
    rw [List.length_cons, ih (i + 1)]

theorem buildRecords_spec : ∀ (rs : List TxnRecord) (i : Nat), (∀ r ∈ rs, goodRec r) →
    buildRecords i (rs.map groupsOf) = expectedFrom i rs := by
  intro rs
  induction rs with
  | nil => intro i _; rfl
  | cons r rest ih =>
    intro i h
    have hdate := (h r (List.mem_cons_self r rest)).1
    show buildRecords i ((r.date, r.name, formatCents r.amountCents) :: rest.map groupsOf) =
      expectedFrom i (r :: rest)
    unfold buildRecords
    rw [if_pos hdate, pyFloatQ_formatCents]
    rw [ih (i + 1) (fun x hx => h x (List.mem_cons_of_mem r hx))]
    rfl

theorem findAll_write (rs : List TxnRecord) (startD endD fname : Str)
    (hgood : ∀ r ∈ rs, goodRec r) (hs : 'D' ∉ startD) (he : 'D' ∉ endD)
    (hf : 'D' ∉ fname) :
    findAll (write_transactions_to_file rs startD endD fname) = rs.map groupsOf := by
  unfold write_transactions_to_file
  rw [List.append_assoc]
  rw [findAll_skip _ _ (noD_fileHeader rs startD endD hs he)]
  rw [findAll_lines rs (fileFooter fname) hgood]
  have hfoot : findAll (fileFooter fname) = [] := by
    rw [← List.append_nil (fileFooter fname)]
    rw [findAll_skip _ _ (noD_fileFooter fname hf)]
    rfl
  rw [hfoot, List.append_nil]

/-! ## Claim theorems: flat-file round trip and parsing -/

/-- **C2 (amended).**  Serialize–write–parse round trip: for every list of
provider-shaped transactions whose serialized records each have a
`strptime`-parseable date, a non-empty comma-free name, and an account
name free of the match-starting character `D` (likewise the date-range
strings and the file path printed in the footer), re-parsing the written
flat file yields exactly one record per written record — same count, the
date string verbatim, the amount exactly the two-decimal value written,
and the name up to whitespace trimming (`expectedFrom` spells out those
fields). -/
theorem claim_C2_roundtrip_amended (txns : List PlaidTxn)
    (amap : List (Str × PlaidAccount)) (startD endD fname : Str)
    (hgood : ∀ r ∈ serialize_transactions txns amap, goodRec r)
    (hs : 'D' ∉ startD) (he : 'D' ∉ endD) (hf : 'D' ∉ fname) :
    (parse_transaction_file (write_transactions_to_file
        (serialize_transactions txns amap) startD endD fname)).transactions =
      expectedFrom 0 (serialize_transactions txns amap) ∧
    (parse_transaction_file (write_transactions_to_file
        (serialize_transactions txns amap) startD endD fname)).count =
      (serialize_transactions txns amap).length := by
  have htr : (parse_transaction_file (write_transactions_to_file
      (serialize_transactions txns amap) startD endD fname)).transactions =
      expectedFrom 0 (serialize_transactions txns amap) := by
    show buildRecords 0 (findAll (write_transactions_to_file
      (serialize_transactions txns amap) startD endD fname)) = _
    rw [findAll_write _ _ _ _ hgood hs he hf]
    exact buildRecords_spec _ 0 hgood
  refine ⟨htr, ?_⟩
  show (parse_transaction_file _).transactions.length = _
  rw [htr, expectedFrom_length]

/-- Witness for C2 (amended) at a concrete two-record export, one record
carrying an account name. -/
theorem claim_C2_witness :
    (parse_transaction_file (write_transactions_to_file
        (serialize_transactions
          [{ date := "2024-01-01".toList, name := " COFFEE SHOP ".toList,
             merchant_name := none, amountCents := -350, account_id := "a1".toList,
             category := [], transaction_id := "t1".toList },
           { date := "2024-01-02".toList, name := "PAYCHECK".toList,
             merchant_name := none, amountCents := 250000, account_id := "a2".toList,
             category := [], transaction_id := "t2".toList }]
          [("a1".toList,
            { account_id := "a1".toList, official_name := some "My Checking".toList,
              name := "chk".toList, masked := none, subtype := some "checking".toList })])
        "2024-01-01".toList "2024-01-31".toList "data/transactions.txt".toList)).transactions =
      expectedFrom 0 (serialize_transactions
          [{ date := "2024-01-01".toList, name := " COFFEE SHOP ".toList,
             merchant_name := none, amountCents := -350, account_id := "a1".toList,
             category := [], transaction_id := "t1".toList },
           { date := "2024-01-02".toList, name := "PAYCHECK".toList,
             merchant_name := none, amountCents := 250000, account_id := "a2".toList,
             category := [], transaction_id := "t2".toList }]
          [("a1".toList,
            { account_id := "a1".toList, official_name := some "My Checking".toList,
              name := "chk".toList, masked := none, subtype := some "checking".toList })]) ∧
    (parse_transaction_file (write_transactions_to_file
        (serialize_transactions
          [{ date := "2024-01-01".toList, name := " COFFEE SHOP ".toList,
             merchant_name := none, amountCents := -350, account_id := "a1".toList,
             category := [], transaction_id := "t1".toList },
           { date := "2024-01-02".toList, name := "PAYCHECK".toList,
             merchant_name := none, amountCents := 250000, account_id := "a2".toList,
             category := [], transaction_id := "t2".toList }]
          [("a1".toList,
            { account_id := "a1".toList, official_name := some "My Checking".toList,
              name := "chk".toList, masked := none, subtype := some "checking".toList })])
        "2024-01-01".toList "2024-01-31".toList "data/transactions.txt".toList)).count =
      (serialize_transactions
          [{ date := "2024-01-01".toList, name := " COFFEE SHOP ".toList,
             merchant_name := none, amountCents := -350, account_id := "a1".toList,
             category := [], transaction_id := "t1".toList },
           { date := "2024-01-02".toList, name := "PAYCHECK".toList,
             merchant_name := none, amountCents := 250000, account_id := "a2".toList,
             category := [], transaction_id := "t2".toList }]
          [("a1".toList,
            { account_id := "a1".toList, official_name := some "My Checking".toList,
              name := "chk".toList, masked := none, subtype := some "checking".toList })]).length :=
  claim_C2_roundtrip_amended _ _ _ _ _ (by decide) (by decide) (by decide) (by decide)

/-- **C2 counterexample.**  One provider-shaped transaction whose name
contains a comma (`"AMAZON, INC"`): the flat file is written with one
record, but re-parsing recovers zero records — the comma truncates the
`[^,]+` name group and the line cannot match — so the round trip of the
claim, quantified over every provider-shaped input, fails. -/
theorem claim_C2_counterexample :
    (serialize_transactions
        [{ date := "2024-01-01".toList, name := "AMAZON, INC".toList,
           merchant_name := none, amountCents := 500, account_id := "a1".toList,
           category := [], transaction_id := "t1".toList }] []).length = 1 ∧
    (parse_transaction_file (write_transactions_to_file
        (serialize_transactions
          [{ date := "2024-01-01".toList, name := "AMAZON, INC".toList,
             merchant_name := none, amountCents := 500, account_id := "a1".toList,
             category := [], transaction_id := "t1".toList }] [])
        "2024-01-01".toList "2024-01-31".toList "data/transactions.txt".toList)).count = 0 := by
  constructor
  · rfl
  · rfl

/-- **C3 (amended).**  The flat-file line
`Date: 2024-01-01, Name: COFFEE SHOP, Amount: $-3.50` parses to a single
record with id 1, date `"2024-01-01"`, name `"COFFEE SHOP"`, amount
`-350/100 = -3.50` and the placeholder time — and the produced dictionary
carries no `account_name` key at all (rather than an `account_name` set
to `None`): its keys are exactly id, date, datetime, name, merchant,
description, amount, time. -/
theorem claim_C3_line_parse_amended :
    (parse_transaction_file
        "Date: 2024-01-01, Name: COFFEE SHOP, Amount: $-3.50\n".toList).transactions =
      [(⟨1, "2024-01-01".toList, "COFFEE SHOP".toList, (-350 : ℚ) / 100⟩ : ParsedTxn)] ∧
    ((-350 : ℚ) / 100 = -(7 / 2 : ℚ)) ∧
    dictGet (pyDict (⟨1, "2024-01-01".toList, "COFFEE SHOP".toList, (-350 : ℚ) / 100⟩ :
        ParsedTxn)) "date".toList = some (PVal.vStr "2024-01-01".toList) ∧
    dictGet (pyDict (⟨1, "2024-01-01".toList, "COFFEE SHOP".toList, (-350 : ℚ) / 100⟩ :
        ParsedTxn)) "name".toList = some (PVal.vStr "COFFEE SHOP".toList) ∧
    dictGet (pyDict (⟨1, "2024-01-01".toList, "COFFEE SHOP".toList, (-350 : ℚ) / 100⟩ :
        ParsedTxn)) "amount".toList = some (PVal.vQ ((-350 : ℚ) / 100)) ∧
    dictGet (pyDict (⟨1, "2024-01-01".toList, "COFFEE SHOP".toList, (-350 : ℚ) / 100⟩ :
        ParsedTxn)) "time".toList = some (PVal.vStr "12:00:00".toList) ∧
    dictGet (pyDict (⟨1, "2024-01-01".toList, "COFFEE SHOP".toList, (-350 : ℚ) / 100⟩ :
        ParsedTxn)) "account_name".toList = none := by
  have hamt : pyFloatQ (pyStrip "-3.50".toList) = some ((-350 : ℚ) / 100) := by
    rw [show ("-3.50".toList : Str) = formatCents (-350) from rfl]
    exact pyFloatQ_formatCents (-350)
  refine ⟨?_, by norm_num, rfl, rfl, rfl, rfl, rfl⟩
  show buildRecords 0 (findAll
    "Date: 2024-01-01, Name: COFFEE SHOP, Amount: $-3.50\n".toList) = _
  rw [show findAll "Date: 2024-01-01, Name: COFFEE SHOP, Amount: $-3.50\n".toList =
    [("2024-01-01".toList, "COFFEE SHOP".toList, "-3.50".toList)] from rfl]
  unfold buildRecords
  rw [if_pos (by decide), hamt]
  rfl

/-- **C3 counterexample.**  The record parsed from the claim's line has no
`account_name` field: looking the key up in the exact dictionary the
parser builds yields nothing, not a `None` value, so the claim that the
record carries an `account_name` field set to `None` is false. -/
theorem claim_C3_counterexample :
    (parse_transaction_file
        "Date: 2024-01-01, Name: COFFEE SHOP, Amount: $-3.50\n".toList).transactions =
      [(⟨1, "2024-01-01".toList, "COFFEE SHOP".toList, (-350 : ℚ) / 100⟩ : ParsedTxn)] ∧
    dictGet (pyDict (⟨1, "2024-01-01".toList, "COFFEE SHOP".toList, (-350 : ℚ) / 100⟩ :
        ParsedTxn)) "account_name".toList = none ∧
    ¬ (dictGet (pyDict (⟨1, "2024-01-01".toList, "COFFEE SHOP".toList, (-350 : ℚ) / 100⟩ :
        ParsedTxn)) "account_name".toList = some PVal.vNone) := by
  have hamt : pyFloatQ (pyStrip "-3.50".toList) = some ((-350 : ℚ) / 100) := by
    rw [show ("-3.50".toList : Str) = formatCents (-350) from rfl]
    exact pyFloatQ_formatCents (-350)
  refine ⟨?_, rfl, ?_⟩
  · show buildRecords 0 (findAll
      "Date: 2024-01-01, Name: COFFEE SHOP, Amount: $-3.50\n".toList) = _
    rw [show findAll "Date: 2024-01-01, Name: COFFEE SHOP, Amount: $-3.50\n".toList =
      [("2024-01-01".toList, "COFFEE SHOP".toList, "-3.50".toList)] from rfl]
    unfold buildRecords
    rw [if_pos (by decide), hamt]
    rfl
  · intro h
    rw [show dictGet (pyDict (⟨1, "2024-01-01".toList, "COFFEE SHOP".toList,
      (-350 : ℚ) / 100⟩ : ParsedTxn)) "account_name".toList = none from rfl] at h
    exact Option.noConfusion h

end FinApp
